import Mathlib

/-!
Formal model of Karbon's `ai_engine.py`.

The module under study has four pieces:
* `extract_json`: strips Markdown code fences from a raw reply and parses a
  JSON value, with a regex-style brace-span fallback;
* `generate_code_from_prompt`: the retry loop around the remote completion
  call, with exponential backoff and a shared status value;
* `optimize_prompt` / `rule_based_enhancement` / `is_generic`: the prompt
  optimiser;
* `set_ai_status`: the single writer of the shared status value.

The remote service is opaque, so it is modelled as an environment: an
initialisation result plus one outcome (reply text / network error / other
error) per attempt.  Status writes, remote calls and sleeps are recorded as an
explicit event list.  Python's `None` result of `extract_json` is identified
with the JSON value `null`, exactly as in Python where `json.loads("null")`
and the failure path both return the same object `None`.
-/

namespace Karbon

/-- The brace characters, named so they can be used in patterns and string
builders without literal brace tokens. -/
def lbrace : Char := '\x7b'

def rbrace : Char := '\x7d'

/-- JSON whitespace as skipped by Python's `json` module: space, tab,
newline, carriage return. -/
def jsonWsChar (c : Char) : Bool :=
  c == ' ' || c == '\t' || c == '\n' || c == '\r'

/-- Whitespace stripped by Python's `str.strip()`.  Python also strips a few
other Unicode space characters (e.g. `\x1c`-`\x1f`, `\x85`, non-ASCII
spaces); those never occur in the texts the claims are about, so the model
uses the common ASCII set. -/
def pySpaceChar (c : Char) : Bool :=
  c == ' ' || c == '\t' || c == '\n' || c == '\r' || c == '\x0b' || c == '\x0c'

def skipWs (cs : List Char) : List Char := cs.dropWhile jsonWsChar

def pyStripLeft (cs : List Char) : List Char := cs.dropWhile pySpaceChar

def pyStripRight (cs : List Char) : List Char :=
  (cs.reverse.dropWhile pySpaceChar).reverse

/-- Python `str.strip()` on a list of characters. -/
def pyStrip (cs : List Char) : List Char := pyStripRight (pyStripLeft cs)

/-- Python `str.strip()` on strings. -/
def pyStripStr (s : String) : String := String.mk (pyStrip s.data)

/-- Python `str.lower()`.  Python lowercases the full Unicode range; the
generic phrases compared against are ASCII, so ASCII lowering (what
`Char.toLower` provides) is the relevant behaviour. -/
def pyLower (s : String) : String := String.mk (s.data.map Char.toLower)

/-- The JSON values produced by Python's `json.loads`.  Numbers keep their
literal token (Python turns them into `int`/`float`; the token determines the
number, and no claim depends on float formatting).  Objects are association
lists in insertion order with last-wins values, matching Python dicts. -/
inductive Json where
  | null : Json
  | bool (b : Bool) : Json
  | num (token : String) : Json
  | str (s : String) : Json
  | arr (elems : List Json) : Json
  | obj (fields : List (String × Json)) : Json

/-- Python `dict` insertion `d[k] = v` replayed from the right: the later
value wins but the key keeps its earliest position, as in CPython dicts. -/
def prependMember (k : String) (v : Json) (fs : List (String × Json)) :
    List (String × Json) :=
  match fs.lookup k with
  | some v2 => (k, v2) :: fs.eraseP (fun kv => kv.1 == k)
  | none => (k, v) :: fs

def hexVal (c : Char) : Option Nat :=
  if '0' ≤ c ∧ c ≤ '9' then some (c.toNat - '0'.toNat)
  else if 'a' ≤ c ∧ c ≤ 'f' then some (c.toNat - 'a'.toNat + 10)
  else if 'A' ≤ c ∧ c ≤ 'F' then some (c.toNat - 'A'.toNat + 10)
  else none

/-- The eight single-character escapes of a JSON string, as source/target
pairs. -/
def escTable : List (Char × Char) :=
  [('"', '"'), ('\\', '\\'), ('/', '/'), ('b', '\x08'), ('f', '\x0c'),
   ('n', '\n'), ('r', '\r'), ('t', '\t')]

def escChar (c : Char) : Option Char := escTable.lookup c

/-- Body of a JSON string, after the opening quote, in Python's strict mode:
raw control characters below `0x20` are rejected, escapes are the eight
single-character ones plus `\uXXXX`.  (Python combines `\uXXXX` surrogate
pairs into one character; lone or paired surrogates cannot inhabit `Char`,
so `Char.ofNat` maps them to a default character.  No claim involves
surrogates.)  The fuel argument decreases once per consumed chunk, so
`length + 1` fuel always suffices. -/
def parseStrBody : Nat → List Char → Option (List Char × List Char)
  | 0, _ => none
  | _ + 1, [] => none
  | fuel + 1, c :: rest =>
    if c == '"' then some ([], rest)
    else if c == '\\' then
      match rest with
      | [] => none
      | e :: rest2 =>
        if e == 'u' then
          match rest2 with
          | a :: b :: c2 :: d :: rest3 =>
            match hexVal a, hexVal b, hexVal c2, hexVal d with
            | some ha, some hb, some hc, some hd =>
              match parseStrBody fuel rest3 with
              | some (s, r) =>
                some (Char.ofNat (((ha * 16 + hb) * 16 + hc) * 16 + hd) :: s, r)
              | none => none
            | _, _, _, _ => none
          | _ => none
        else
          match escChar e with
          | some ch =>
            match parseStrBody fuel rest2 with
            | some (s, r) => some (ch :: s, r)
            | none => none
          | none => none
    else if c.toNat < 32 then none
    else
      match parseStrBody fuel rest with
      | some (s, r) => some (c :: s, r)
      | none => none

def isDigitChar (c : Char) : Bool := '0' ≤ c && c ≤ '9'

/-- Integer part of a JSON number: `0` or a nonzero digit followed by digits
(matching the `(?:0|[1-9]\d*)` part of Python's number regex: after a leading
zero no further digits are consumed). -/
def parseIntPart (cs : List Char) : Option (List Char × List Char) :=
  match cs with
  | [] => none
  | c :: rest =>
    if c == '0' then some (['0'], rest)
    else
      let ds := (c :: rest).takeWhile isDigitChar
      if ds.isEmpty then none
      else some (ds, (c :: rest).dropWhile isDigitChar)

/-- Optional fraction `(\.\d+)?`: consumed only when the dot is followed by at
least one digit. -/
def parseFracPart (cs : List Char) : List Char × List Char :=
  match cs with
  | [] => ([], [])
  | c :: rest =>
    if c == '.' then
      let ds := rest.takeWhile isDigitChar
      if ds.isEmpty then ([], c :: rest)
      else ('.' :: ds, rest.dropWhile isDigitChar)
    else ([], c :: rest)

/-- Optional exponent `([eE][-+]?\d+)?`: consumed only when complete. -/
def parseExpPart (cs : List Char) : List Char × List Char :=
  match cs with
  | e :: rest =>
    if e == 'e' || e == 'E' then
      match rest with
      | s :: rest2 =>
        if s == '+' || s == '-' then
          let ds := rest2.takeWhile isDigitChar
          if ds.isEmpty then ([], cs)
          else (e :: s :: ds, rest2.dropWhile isDigitChar)
        else
          let ds := rest.takeWhile isDigitChar
          if ds.isEmpty then ([], cs)
          else (e :: ds, rest.dropWhile isDigitChar)
      | [] => ([], cs)
    else ([], cs)
  | [] => ([], cs)

/-- A JSON number without sign, as matched by Python's `NUMBER_RE`. -/
def parseNumPos (cs : List Char) : Option (List Char × List Char) :=
  match parseIntPart cs with
  | none => none
  | some (i, r1) =>
    let (f, r2) := parseFracPart r1
    let (x, r3) := parseExpPart r2
    some (i ++ f ++ x, r3)

/-- A JSON number with optional leading minus sign. -/
def parseNum (cs : List Char) : Option (List Char × List Char) :=
  match cs with
  | [] => none
  | c :: rest =>
    if c == '-' then
      match parseNumPos rest with
      | some (t, r) => some ('-' :: t, r)
      | none => none
    else parseNumPos (c :: rest)

/-- Parsing modes of the JSON scanner: a single value, the members of an
object after its opening brace (first member onward), or the elements of an
array after its opening bracket (first element onward). -/
inductive PMode where
  | value : PMode
  | members : PMode
  | elements : PMode

/-- The JSON scanner of Python's `json` module (strict mode, with the default
acceptance of `NaN`, `Infinity` and `-Infinity`).  Fuel decreases once per
mode switch; `length + 1` fuel is always sufficient because every switch is
paired with consumed input.  In `members` mode the result is the `Json.obj`
of the parsed members, in `elements` mode the `Json.arr` of the parsed
elements. -/
def parseF : Nat → PMode → List Char → Option (Json × List Char)
  | 0, _, _ => none
  | _ + 1, .value, [] => none
  | fuel + 1, .value, c :: rest =>
    if c == lbrace then
      match skipWs rest with
      | [] => none
      | c2 :: r => if c2 == rbrace then some (.obj [], r)
                   else parseF fuel .members (c2 :: r)
    else if c == '[' then
      match skipWs rest with
      | [] => none
      | c2 :: r => if c2 == ']' then some (.arr [], r)
                   else parseF fuel .elements (c2 :: r)
    else if c == '"' then
      match parseStrBody (rest.length + 1) rest with
      | some (s, r) => some (.str (String.mk s), r)
      | none => none
    else if c == 't' then
      if "rue".data.isPrefixOf rest then some (.bool true, rest.drop 3) else none
    else if c == 'f' then
      if "alse".data.isPrefixOf rest then some (.bool false, rest.drop 4) else none
    else if c == 'n' then
      if "ull".data.isPrefixOf rest then some (.null, rest.drop 3) else none
    else if c == 'N' then
      if "aN".data.isPrefixOf rest then some (.num "NaN", rest.drop 2) else none
    else if c == 'I' then
      if "nfinity".data.isPrefixOf rest then some (.num "Infinity", rest.drop 7)
      else none
    else if c == '-' then
      if "Infinity".data.isPrefixOf rest then some (.num "-Infinity", rest.drop 8)
      else
        match parseNum (c :: rest) with
        | some (t, r) => some (.num (String.mk t), r)
        | none => none
    else
      match parseNum (c :: rest) with
      | some (t, r) => some (.num (String.mk t), r)
      | none => none
  | fuel + 1, .members, cs =>
    match cs with
    | [] => none
    | c0 :: rest =>
      if c0 == '"' then
        match parseStrBody (rest.length + 1) rest with
        | none => none
        | some (key, r1) =>
          match skipWs r1 with
          | [] => none
          | c3 :: r2 =>
            if c3 == ':' then
              match parseF fuel .value (skipWs r2) with
              | none => none
              | some (v, r3) =>
                match skipWs r3 with
                | [] => none
                | c4 :: r4 =>
                  if c4 == ',' then
                    match parseF fuel .members (skipWs r4) with
                    | some (.obj fs, r5) =>
                      some (.obj (prependMember (String.mk key) v fs), r5)
                    | _ => none
                  else if c4 == rbrace then
                    some (.obj [(String.mk key, v)], r4)
                  else none
            else none
      else none
  | fuel + 1, .elements, cs =>
    match parseF fuel .value cs with
    | none => none
    | some (v, r) =>
      match skipWs r with
      | [] => none
      | c2 :: r2 =>
        if c2 == ',' then
          match parseF fuel .elements (skipWs r2) with
          | some (.arr vs, r3) => some (.arr (v :: vs), r3)
          | _ => none
        else if c2 == ']' then some (.arr [v], r2)
        else none

/-- Both-ends JSON-whitespace strip. -/
def stripJsonWs (cs : List Char) : List Char :=
  ((skipWs cs).reverse.dropWhile jsonWsChar).reverse

/-- Model of Python's `json.loads`: it skips leading JSON whitespace, parses
one value, and then accepts exactly when only JSON whitespace remains.
Because the scanner never consumes whitespace after the root value, this is
the same as stripping JSON whitespace from both ends and requiring the value
to consume the whole remainder, which is the formulation used here. -/
def json_loads (cs : List Char) : Option Json :=
  match parseF ((stripJsonWs cs).length + 1) .value (stripJsonWs cs) with
  | some (v, []) => some v
  | _ => none

/-- Lines 23-27 of `ai_engine.py`: `clean_response` after the initial
`strip()`, the conditional removal of a leading <code>```json</code> fence
marker and of a trailing <code>```</code> marker, re-stripping after each
removal (the second test is applied to the result of the first). -/
def cleanSuffixFence (c2 : List Char) : List Char :=
  if "```".data.isSuffixOf c2 then pyStrip (c2.take (c2.length - 3)) else c2

def cleanPrefixFence (c1 : List Char) : List Char :=
  if "```json".data.isPrefixOf c1 then cleanSuffixFence (pyStrip (c1.drop 7))
  else cleanSuffixFence c1

def cleanResponse (cs : List Char) : List Char :=
  cleanPrefixFence (pyStrip cs)

/-- The regex fallback `re.search(r'\{.*\}', clean_response, re.DOTALL)`:
with a greedy `.*` in DOTALL mode this matches from the first opening brace
to the last closing brace, provided some closing brace follows the first
opening one. -/
def braceSpan (cs : List Char) : Option (List Char) :=
  match cs.dropWhile (fun c => !(c == lbrace)) with
  | [] => none
  | c :: rest =>
    match (c :: rest).reverse.dropWhile (fun c2 => !(c2 == rbrace)) with
    | [] => none
    | rev => some rev.reverse

/-- `extract_json` from `ai_engine.py`.  The Python function returns the
parsed value on success and `None` on failure; since `json.loads("null")`
also returns `None`, the failure result and a parsed JSON `null` are the very
same Python value, which the model renders by returning `Json.null` in both
cases. -/
def extract_json (response : String) : Json :=
  match json_loads (cleanResponse response.data) with
  | some v => v
  | none =>
    match braceSpan (cleanResponse response.data) with
    | some sub =>
      match json_loads sub with
      | some v => v
      | none => Json.null
    | none => Json.null

example : extract_json "\x7b\"a\": 1\x7d" = .obj [("a", .num "1")] := rfl

example : extract_json "```json\n\x7b\"a\": true\x7d\n```" =
    .obj [("a", .bool true)] := rfl

example : extract_json "hello \x7b\"a\": null\x7d world" =
    .obj [("a", .null)] := rfl

example : extract_json "null" = .null := rfl

example : extract_json "garbage" = .null := rfl

example : extract_json "  [1, 2.5e3, \"x\\n\", 012]  " = .null := rfl

example : extract_json "[1, \"ab\", \x7b\x7d]" =
    .arr [.num "1", .str "ab", .obj []] := rfl

example : json_loads "\x7b\"a\": 1, \"a\": 2, \"b\": 3\x7d".data =
    some (.obj [("a", .num "2"), ("b", .num "3")]) := rfl

/-- Python `str.replace` for a nonempty pattern: scan left to right, replace
every non-overlapping occurrence.  One fuel unit per consumed character
suffices since each step consumes at least one character. -/
def replaceAux (old new : List Char) : Nat → List Char → List Char
  | 0, cs => cs
  | _ + 1, [] => []
  | fuel + 1, c :: rest =>
    if old.isPrefixOf (c :: rest) then
      new ++ replaceAux old new fuel ((c :: rest).drop old.length)
    else
      c :: replaceAux old new fuel rest

/-- Python `str.replace(old, new)` (all occurrences).  For an empty `old`
Python inserts `new` before every character and at the end. -/
def pyReplace (s old new : String) : String :=
  if old.data.isEmpty then
    String.mk (new.data ++ s.data.flatMap (fun c => c :: new.data))
  else
    String.mk (replaceAux old.data new.data s.data.length s.data)

example : pyReplace "ab" "" "-" = "-a-b-" := rfl

example : pyReplace "aaa" "aa" "b" = "ba" := rfl

/-- Line 88-89 of `ai_engine.py`: the final document is built by two chained
`str.replace` calls, first inlining the CSS before `</head>` and then the JS
before `</body>` on the result. -/
def assembleDoc (html css js : String) : String :=
  pyReplace (pyReplace html "</head>" ("<style>" ++ css ++ "</style></head>"))
    "</body>" ("<script>" ++ js ++ "</script></body>")

example :
    assembleDoc "<html><head></head><body></body></html>"
      "body\x7bcolor:red\x7d" "console.log(1)" =
    "<html><head><style>body\x7bcolor:red\x7d</style></head><body><script>console.log(1)</script></body></html>" := rfl

/-- `str.split(old)` on lists of characters (for nonempty `old`), scanning
left to right; pieces are the maximal runs between non-overlapping
occurrences. -/
def splitOnAux (old : List Char) : Nat → List Char → List (List Char)
  | 0, cs => [cs]
  | _ + 1, [] => [[]]
  | fuel + 1, c :: rest =>
    if old.isPrefixOf (c :: rest) then
      [] :: splitOnAux old fuel ((c :: rest).drop old.length)
    else
      match splitOnAux old fuel rest with
      | [] => [[c]]
      | piece :: more => (c :: piece) :: more

/-- Replace-all-occurrences expressed independently of `replaceAux`: split on
the pattern and interleave the replacement. -/
def spliceAll (s old new : List Char) : List Char :=
  List.intercalate new (splitOnAux old s.length s)

/-- The assembly of the final document as described by the (amended)
specification sentence: every occurrence of `</head>` / `</body>` replaced,
expressed through split-and-interleave. -/
def specAssembleDoc (html css js : String) : String :=
  String.mk
    (spliceAll
      (spliceAll html.data "</head>".data
        ("<style>" ++ css ++ "</style></head>").data)
      "</body>".data ("<script>" ++ js ++ "</script></body>").data)

/-- First-occurrence-only replacement, following the specification's words
"first-occurrence, literal-substring replacement". -/
def replaceFirstAux (old new : List Char) : Nat → List Char → List Char
  | 0, cs => cs
  | _ + 1, [] => []
  | fuel + 1, c :: rest =>
    if old.isPrefixOf (c :: rest) then
      new ++ (c :: rest).drop old.length
    else
      c :: replaceFirstAux old new fuel rest

/-- The assembly of the final document as literally described by the
specification: first occurrence of each tag only. -/
def specAssembleDocFirst (html css js : String) : String :=
  String.mk
    (replaceFirstAux "</body>".data
      ("<script>" ++ js ++ "</script></body>").data
      (replaceFirstAux "</head>".data
        ("<style>" ++ css ++ "</style></head>").data html.data.length
        html.data).length
      (replaceFirstAux "</head>".data
        ("<style>" ++ css ++ "</style></head>").data html.data.length
        html.data))

/-! ### The code generator `generate_code_from_prompt`

The remote completion service is opaque; a call either yields a reply text
(`model.generate_content(...).text` succeeded), raises a
`requests.exceptions.RequestException` (the network-classified case), or
raises any other exception.  Client initialisation (`genai.configure` and
`GenerativeModel(...)`) either succeeds or raises.  The instruction template
built from the prompt flows only into the opaque call, so the environment
below (one outcome per attempt index) is the complete interface of a call. -/

inductive Outcome where
  | reply (text : String) : Outcome
  | netError (detail : String) : Outcome
  | otherError (detail : String) : Outcome

/-- Observable events of one `generate_code_from_prompt` call: writes to the
shared status value via `set_ai_status`, remote completion calls, and
`time.sleep` delays. -/
inductive Ev where
  | status (state msg : String) : Ev
  | call (idx : Nat) : Ev
  | sleep (n : Nat) : Ev
deriving DecidableEq

structure GenResult where
  events : List Ev
  output : String
deriving DecidableEq

def statusWrites (evs : List Ev) : List (String × String) :=
  evs.filterMap fun e =>
    match e with
    | .status s m => some (s, m)
    | _ => none

def sleepsOf (evs : List Ev) : List Nat :=
  evs.filterMap fun e =>
    match e with
    | .sleep n => some n
    | _ => none

def callsOf (evs : List Ev) : Nat :=
  (evs.filterMap fun e =>
    match e with
    | .call i => some i
    | _ => none).length

def cannedUnavailable : String :=
  "<!DOCTYPE html><html><head><title>Error</title><style></style></head><body><h1>AI service is currently unavailable.</h1></body></html>"

def cannedParseError : String :=
  "<!DOCTYPE html><html><head><title>Error</title><style></style></head><body><h1>Could not parse AI response.</h1><script></script></body></html>"

def stConnecting : Ev := .status "connecting" "Connecting to AI service..."

def stInitError : Ev :=
  .status "error" "AI service unavailable (no internet connection or invalid API key)."

def stGenerating : Ev := .status "generating" "Generating code..."

def stOnline : Ev := .status "online" "AI service is online."

def stParseError : Ev := .status "error" "Could not parse AI response."

def stNetOffline : Ev := .status "offline" "Network error, AI service is offline."

def stOtherError (d : String) : Ev := .status "error" ("AI service error: " ++ d)

def stExhausted (d : String) : Ev :=
  .status "offline" ("AI service unavailable: " ++ d ++ ".")

/-- Python truthiness of a parsed JSON value (`if not parsed:`): `None`,
`False`, numeric zero, the empty string, the empty list and the empty dict
are falsy.  A numeric token is zero exactly when all its mantissa digits are
zero (`0`, `-0.00`, `0e5`, ...); the non-finite constants are truthy. -/
def pyFalsy : Json → Bool
  | .null => true
  | .bool b => !b
  | .num tok =>
    if tok == "NaN" || tok == "Infinity" || tok == "-Infinity" then false
    else
      ((tok.data.takeWhile fun c => !(c == 'e' || c == 'E')).filter
        isDigitChar).all (· == '0')
  | .str s => s.isEmpty
  | .arr xs => xs.isEmpty
  | .obj fs => fs.isEmpty

/-- Python `dict.get(k, default)` on the association lists produced by the
parser. -/
def pyDictGet (fs : List (String × Json)) (k : String) (dflt : Json) : Json :=
  match fs.lookup k with
  | some v => v
  | none => dflt

def isStrVal : Json → Option String
  | .str s => some s
  | _ => none

/-- Python `str()` of a parsed JSON value, as used by the f-strings
`f"<style>...{css}..."`.  Every claim exercises only the string case; for
numbers Python's float formatting is not reproduced (the literal token is
used), and for containers a placeholder stands for Python's `repr`-style
rendering — both marked approximations of library behaviour that no claim
touches. -/
def pyStr : Json → String
  | .str s => s
  | .bool true => "True"
  | .bool false => "False"
  | .null => "None"
  | .num tok => tok
  | .arr _ => "[...]"
  | .obj _ => String.mk [lbrace, '.', '.', '.', rbrace]

/-- Result of the body of one loop iteration once a reply text has been
obtained (lines 74-93): an immediate parse-failure return, a successful
return with the assembled document, or an exception reaching the
`except Exception` handler (a non-dict value or a non-string `html` value
makes `parsed.get`/`html.replace` raise `AttributeError`; the `online` status
write has already happened in that case). -/
inductive StepResult where
  | abortParse : StepResult
  | success (doc : String) : StepResult
  | failure (detail : String) : StepResult

def attemptStep (response : String) : StepResult :=
  let parsed := extract_json response
  if pyFalsy parsed then .abortParse
  else
    match parsed with
    | .obj fs =>
      match isStrVal (pyDictGet fs "html" (.str "")) with
      | some html =>
        let css := pyStr (pyDictGet fs "css" (.str ""))
        let js := pyStr (pyDictGet fs "js" (.str ""))
        .success (assembleDoc html css js)
      | none => .failure "AttributeError"
    | _ => .failure "AttributeError"

/-- The retry loop of lines 68-105, from attempt `idx` with `remaining`
iterations left and `last_exception` rendered as `lastExc` (initially the
string form of Python's `None`).  Every iteration writes `generating`, makes
the remote call, and either returns (parse abort or success) or records the
failure, sleeps `2 ^ idx`, and continues; an exhausted loop writes the final
`offline` status carrying the last failure detail and returns the canned
document. -/
def genAttempts (outcomes : Nat → Outcome) : Nat → Nat → String → GenResult
  | _, 0, lastExc => ⟨[stExhausted lastExc], cannedUnavailable⟩
  | idx, remaining + 1, _ =>
    match outcomes idx with
    | .netError d =>
      let rest := genAttempts outcomes (idx + 1) remaining d
      ⟨stGenerating :: .call idx :: stNetOffline :: .sleep (2 ^ idx) ::
        rest.events, rest.output⟩
    | .otherError d =>
      let rest := genAttempts outcomes (idx + 1) remaining d
      ⟨stGenerating :: .call idx :: stOtherError d :: .sleep (2 ^ idx) ::
        rest.events, rest.output⟩
    | .reply text =>
      match attemptStep text with
      | .abortParse =>
        ⟨[stGenerating, .call idx, stParseError], cannedParseError⟩
      | .success doc => ⟨[stGenerating, .call idx, stOnline], doc⟩
      | .failure d =>
        let rest := genAttempts outcomes (idx + 1) remaining d
        ⟨stGenerating :: .call idx :: stOnline :: stOtherError d ::
          .sleep (2 ^ idx) :: rest.events, rest.output⟩

/-- `generate_code_from_prompt(prompt, api_key, model_source, retries)`.
`initFailure` is `some detail` when client initialisation raises; the
`connecting` status has already been written inside the `try` before that
point.  On success the loop runs `retries + 1` attempts. -/
def generate_code_from_prompt (initFailure : Option String)
    (outcomes : Nat → Outcome) (retries : Nat) : GenResult :=
  match initFailure with
  | some _ => ⟨[stConnecting, stInitError], cannedUnavailable⟩
  | none =>
    let r := genAttempts outcomes 0 (retries + 1) "None"
    ⟨stConnecting :: r.events, r.output⟩

/-! ### The prompt optimiser -/

/-- Outcome of the optimiser's single remote rewrite call (initialisation
and the call itself share one `try`): it raises, or returns a text. -/
inductive RemoteCall where
  | raises (detail : String) : RemoteCall
  | returns (text : String) : RemoteCall

def generic_phrases : List String :=
  ["make a website", "build ui", "create page", "webpage", "dashboard",
   "login", "landing page"]

/-- `is_generic`: membership of `prompt.lower().strip()` in the fixed set. -/
def is_generic (prompt : String) : Bool :=
  generic_phrases.contains (pyStripStr (pyLower prompt))

/-- `rule_based_enhancement`: the trimmed prompt, a blank line, and the three
fixed guidance lines joined by newlines. -/
def rule_based_enhancement (prompt : String) : String :=
  pyStripStr prompt ++ "\n\n" ++
    "Use semantic HTML5 structure.\n" ++
    "Apply responsive CSS (mobile-first).\n" ++
    "Include clean modular JavaScript with comments."

/-- Result of `optimize_prompt`: the returned string, whether the
enhancement path (remote rewrite or rule-based fallback) was taken at all,
and the status writes performed (the function never calls `set_ai_status`;
its body only prints and logs). -/
structure OptResult where
  result : String
  attemptedEnhancement : Bool
  statusWrites : List (String × String)
deriving DecidableEq

/-- `optimize_prompt(prompt, api_key)`: return the prompt unchanged when the
trimmed prompt has at least 20 characters and is not generic; otherwise ask
the remote service for a rewrite, falling back to `rule_based_enhancement`
when the call raises or returns an empty-after-strip text (`if not
improved:`); a successful rewrite is returned stripped. -/
def optimize_prompt (prompt : String) (remote : RemoteCall) : OptResult :=
  if 20 ≤ (pyStrip prompt.data).length && !is_generic prompt then
    ⟨prompt, false, []⟩
  else
    match remote with
    | .raises _ => ⟨rule_based_enhancement prompt, true, []⟩
    | .returns t =>
      let improved := pyStripStr t
      if improved.isEmpty then ⟨rule_based_enhancement prompt, true, []⟩
      else ⟨improved, true, []⟩

example :
    (generate_code_from_prompt none
      (fun _ => .reply "\x7b\"html\":\"<html><head></head><body></body></html>\",\"css\":\"body\x7bcolor:red\x7d\",\"js\":\"console.log(1)\",\"name\":\"X\"\x7d")
      2).output =
    "<html><head><style>body\x7bcolor:red\x7d</style></head><body><script>console.log(1)</script></body></html>" := rfl

example :
    (generate_code_from_prompt none (fun _ => .netError "boom") 1).events =
    [stConnecting, stGenerating, .call 0, stNetOffline, .sleep 1,
     stGenerating, .call 1, stNetOffline, .sleep 2, stExhausted "boom"] := rfl

example : (optimize_prompt "ok" (.returns "ok")).result = "ok" := rfl

/-! ### Derived notions used by the claims -/

/-- An attempt with this outcome raises inside the `try` block and reaches an
`except` handler (rather than returning): a network error, another service
error, or a reply whose processing raises after extraction. -/
def outcomeFails (o : Outcome) : Bool :=
  match o with
  | .netError _ => true
  | .otherError _ => true
  | .reply t =>
    match attemptStep t with
    | .failure _ => true
    | _ => false

/-- The exception detail captured in `last_exception` by a failing attempt. -/
def failDetail (o : Outcome) : String :=
  match o with
  | .netError d => d
  | .otherError d => d
  | .reply t =>
    match attemptStep t with
    | .failure d => d
    | _ => ""

/-- The events of one failing attempt at index `idx` (meaningful when
`outcomeFails o = true`). -/
def failEvents (o : Outcome) (idx : Nat) : List Ev :=
  match o with
  | .netError _ => [stGenerating, .call idx, stNetOffline, .sleep (2 ^ idx)]
  | .otherError d =>
    [stGenerating, .call idx, stOtherError d, .sleep (2 ^ idx)]
  | .reply t =>
    match attemptStep t with
    | .failure d =>
      [stGenerating, .call idx, stOnline, stOtherError d, .sleep (2 ^ idx)]
    | _ => []

/-- The successive states written to the shared status value. -/
def stateNames (evs : List Ev) : List String :=
  (statusWrites evs).map Prod.fst

/-- The state machine claimed by the specification: `connecting →
{generating, error}`, `generating → {online, offline, error}`, with
`online`, `offline`, `error` terminal within a call. -/
def claimedTransition (a b : String) : Bool :=
  (a == "connecting" && (b == "generating" || b == "error")) ||
  (a == "generating" && (b == "online" || b == "offline" || b == "error"))

/-- The state machine the code actually follows within one call: the claimed
transitions plus `online → error` (assembly of the document raised after the
`online` write), `offline/error → generating` (a further attempt follows a
failed one) and `offline/error → offline` (the final exhaustion write
follows the last failed attempt). -/
def observedTransition (a b : String) : Bool :=
  claimedTransition a b ||
  (a == "online" && b == "error") ||
  ((a == "offline" || a == "error") && (b == "generating" || b == "offline"))

/-- Non-null, non-object JSON values: arrays, numbers, strings, booleans. -/
def isNonNullNonObj : Json → Bool
  | .arr _ => true
  | .num _ => true
  | .str _ => true
  | .bool _ => true
  | _ => false

/-! ### Helper lemmas about the event accessors -/

lemma callsOf_status (s m : String) (l : List Ev) :
    callsOf (.status s m :: l) = callsOf l := by
  simp [callsOf, List.filterMap_cons]

lemma callsOf_sleep (n : Nat) (l : List Ev) :
    callsOf (.sleep n :: l) = callsOf l := by
  simp [callsOf, List.filterMap_cons]

lemma callsOf_call (i : Nat) (l : List Ev) :
    callsOf (.call i :: l) = callsOf l + 1 := by
  simp [callsOf, List.filterMap_cons]

lemma sleepsOf_status (s m : String) (l : List Ev) :
    sleepsOf (.status s m :: l) = sleepsOf l := by
  simp [sleepsOf, List.filterMap_cons]

lemma sleepsOf_call (i : Nat) (l : List Ev) :
    sleepsOf (.call i :: l) = sleepsOf l := by
  simp [sleepsOf, List.filterMap_cons]

lemma sleepsOf_sleep (n : Nat) (l : List Ev) :
    sleepsOf (.sleep n :: l) = n :: sleepsOf l := by
  simp [sleepsOf, List.filterMap_cons]

lemma sleepsOf_append (a b : List Ev) :
    sleepsOf (a ++ b) = sleepsOf a ++ sleepsOf b := by
  simp [sleepsOf, List.filterMap_append]

lemma sleepsOf_flatMap {α : Type} (l : List α) (f : α → List Ev) :
    sleepsOf (l.flatMap f) = l.flatMap (fun x => sleepsOf (f x)) := by
  induction l with
  | nil => rfl
  | cons x xs ih => simp [List.flatMap_cons, sleepsOf_append, ih]

lemma statusWrites_status (s m : String) (l : List Ev) :
    statusWrites (.status s m :: l) = (s, m) :: statusWrites l := by
  simp [statusWrites, List.filterMap_cons]

lemma statusWrites_call (i : Nat) (l : List Ev) :
    statusWrites (.call i :: l) = statusWrites l := by
  simp [statusWrites, List.filterMap_cons]

lemma statusWrites_sleep (n : Nat) (l : List Ev) :
    statusWrites (.sleep n :: l) = statusWrites l := by
  simp [statusWrites, List.filterMap_cons]

lemma statusWrites_append (a b : List Ev) :
    statusWrites (a ++ b) = statusWrites a ++ statusWrites b := by
  simp [statusWrites, List.filterMap_append]

/-- At most one remote call per remaining loop iteration. -/
lemma genAttempts_calls_le (outcomes : Nat → Outcome) :
    ∀ (remaining idx : Nat) (lastExc : String),
      callsOf (genAttempts outcomes idx remaining lastExc).events ≤
        remaining := by
  intro remaining
  induction remaining with
  | zero =>
    intro idx l
    simp [genAttempts, callsOf, stExhausted, List.filterMap_cons]
  | succ n ih =>
    intro idx l
    unfold genAttempts
    cases houtc : outcomes idx with
    | netError d =>
      dsimp only
      rw [show stGenerating = Ev.status "generating" "Generating code..."
        from rfl,
        show stNetOffline =
          Ev.status "offline" "Network error, AI service is offline."
          from rfl]
      rw [callsOf_status, callsOf_call, callsOf_status, callsOf_sleep]
      exact Nat.succ_le_succ (ih idx.succ d)
    | otherError d =>
      dsimp only
      rw [show stGenerating = Ev.status "generating" "Generating code..."
        from rfl,
        show stOtherError d =
          Ev.status "error" ("AI service error: " ++ d) from rfl]
      rw [callsOf_status, callsOf_call, callsOf_status, callsOf_sleep]
      exact Nat.succ_le_succ (ih idx.succ d)
    | reply t =>
      dsimp only
      cases hstep : attemptStep t with
      | abortParse =>
        simp [callsOf, stGenerating, stParseError, List.filterMap_cons]
      | success doc =>
        simp [callsOf, stGenerating, stOnline, List.filterMap_cons]
      | failure d =>
        dsimp only
        rw [show stGenerating = Ev.status "generating" "Generating code..."
          from rfl,
          show stOnline = Ev.status "online" "AI service is online."
          from rfl,
          show stOtherError d =
            Ev.status "error" ("AI service error: " ++ d) from rfl]
        rw [callsOf_status, callsOf_call, callsOf_status, callsOf_status,
          callsOf_sleep]
        exact Nat.succ_le_succ (ih idx.succ d)

/-- When every attempt in range fails, the loop produces exactly the
per-attempt failure chunks followed by the final exhaustion status, and
returns the canned document. -/
lemma genAttempts_allFail (outcomes : Nat → Outcome) :
    ∀ (remaining idx : Nat) (lastExc : String),
      (∀ i, idx ≤ i → i ≤ idx + remaining →
        outcomeFails (outcomes i) = true) →
      genAttempts outcomes idx (remaining + 1) lastExc =
        ⟨(List.range' idx (remaining + 1)).flatMap
            (fun i => failEvents (outcomes i) i) ++
          [stExhausted (failDetail (outcomes (idx + remaining)))],
          cannedUnavailable⟩ := by
  intro remaining
  induction remaining with
  | zero =>
    intro idx lastExc h
    have hidx := h idx le_rfl (by omega)
    unfold genAttempts
    cases houtc : outcomes idx with
    | netError d =>
      simp [genAttempts, houtc, failEvents, failDetail, List.range']
    | otherError d =>
      simp [genAttempts, houtc, failEvents, failDetail, List.range']
    | reply t =>
      rw [houtc] at hidx
      cases hstep : attemptStep t with
      | abortParse => simp [outcomeFails, hstep] at hidx
      | success doc => simp [outcomeFails, hstep] at hidx
      | failure d =>
        simp [genAttempts, houtc, hstep, failEvents, failDetail,
          List.range']
  | succ n ih =>
    intro idx lastExc h
    have hidx := h idx le_rfl (by omega)
    have hall : ∀ i, idx + 1 ≤ i → i ≤ idx + 1 + n →
        outcomeFails (outcomes i) = true :=
      fun i h1 h2 => h i (by omega) (by omega)
    have harith : idx + 1 + n = idx + (n + 1) := by omega
    unfold genAttempts
    cases houtc : outcomes idx with
    | netError d =>
      dsimp only
      rw [ih (idx + 1) d hall, harith]
      simp [List.range'_succ, List.flatMap_cons, failEvents, houtc]
    | otherError d =>
      dsimp only
      rw [ih (idx + 1) d hall, harith]
      simp [List.range'_succ, List.flatMap_cons, failEvents, houtc]
    | reply t =>
      rw [houtc] at hidx
      cases hstep : attemptStep t with
      | abortParse => simp [outcomeFails, hstep] at hidx
      | success doc => simp [outcomeFails, hstep] at hidx
      | failure d =>
        dsimp only
        rw [hstep]
        dsimp only
        rw [ih (idx + 1) d hall, harith]
        simp [List.range'_succ, List.flatMap_cons, failEvents, houtc, hstep]

/-- A failing attempt sleeps exactly `2 ^ idx`. -/
lemma sleepsOf_failEvents (o : Outcome) (i : Nat)
    (h : outcomeFails o = true) : sleepsOf (failEvents o i) = [2 ^ i] := by
  cases o with
  | netError d =>
    simp [failEvents, sleepsOf, List.filterMap_cons, stGenerating,
      stNetOffline]
  | otherError d =>
    simp [failEvents, sleepsOf, List.filterMap_cons, stGenerating,
      stOtherError]
  | reply t =>
    cases hstep : attemptStep t with
    | abortParse => simp [outcomeFails, hstep] at h
    | success doc => simp [outcomeFails, hstep] at h
    | failure d =>
      simp [failEvents, hstep, sleepsOf, List.filterMap_cons, stGenerating,
        stOnline, stOtherError]

/-! ### Claim C3: exhaustion ends offline with the canned document -/

/-- C3 (confirmed): after successful initialisation the call makes at most
`retries + 1` remote completion attempts; and when every attempt fails
(without a parse abort), the final status write is `offline` carrying the
last captured failure detail, and the canned generic error document is
returned — the model is total, so no exception ever reaches the caller. -/
theorem retry_exhaustion_goes_offline (outcomes : Nat → Outcome)
    (retries : Nat) :
    callsOf (generate_code_from_prompt none outcomes retries).events ≤
      retries + 1 ∧
    ((∀ i, i ≤ retries → outcomeFails (outcomes i) = true) →
      (generate_code_from_prompt none outcomes retries).output =
        cannedUnavailable ∧
      (statusWrites (generate_code_from_prompt none outcomes
        retries).events).getLast? =
        some ("offline",
          "AI service unavailable: " ++ failDetail (outcomes retries) ++
            ".")) := by
  constructor
  · unfold generate_code_from_prompt
    dsimp only
    rw [show stConnecting =
      Ev.status "connecting" "Connecting to AI service..." from rfl]
    rw [callsOf_status]
    exact genAttempts_calls_le outcomes (retries + 1) 0 "None"
  · intro h
    have hchar := genAttempts_allFail outcomes retries 0 "None"
      (fun i _ h2 => h i (by omega))
    unfold generate_code_from_prompt
    dsimp only
    rw [hchar]
    refine ⟨rfl, ?_⟩
    rw [show stConnecting =
      Ev.status "connecting" "Connecting to AI service..." from rfl]
    rw [statusWrites_status, statusWrites_append]
    rw [show statusWrites [stExhausted (failDetail (outcomes (0 + retries)))]
      = [("offline",
          "AI service unavailable: " ++
            failDetail (outcomes (0 + retries)) ++ ".")] from rfl]
    rw [show (0 : Nat) + retries = retries from by omega]
    rw [← List.cons_append]
    exact List.getLast?_concat _

/-- Witness for C3's exhaustion hypothesis: every attempt a network error. -/
theorem retry_exhaustion_goes_offline_witness :
    (generate_code_from_prompt none (fun _ => .netError "boom") 1).output =
      cannedUnavailable ∧
    (statusWrites (generate_code_from_prompt none (fun _ => .netError "boom")
      1).events).getLast? =
      some ("offline",
        "AI service unavailable: " ++
          failDetail ((fun _ => Outcome.netError "boom") 1) ++ ".") :=
  (retry_exhaustion_goes_offline (fun _ => .netError "boom") 1).2
    (fun _ _ => rfl)

/-! ### Claim C4: backoff delays -/

/-- C4 counterexample: with `retries = 2` and every attempt failing, the
call sleeps `2^0`, `2^1` and also `2^2` after the final attempt, refuting
"a fully exhausted call performs delays `2^0, ..., 2^(retries-1)` and none
after the final attempt". -/
theorem backoff_sleeps_after_final_attempt :
    sleepsOf (generate_code_from_prompt none (fun _ => .netError "x")
      2).events = [1, 2, 4] ∧
    [1, 2, 4] ≠ [2 ^ 0, 2 ^ 1] := ⟨rfl, by decide⟩

/-- C4 (corrected): a failing attempt with index `i` writes its `offline`
(or `error`) status and is followed by a delay of `2 ^ i` time units before
the next attempt — but the delay follows every failed attempt, including
the final one, so a fully exhausted call with `retries` retries performs
the delays `2^0, 2^1, ..., 2^retries`.  The event list is characterised
exactly: per failed attempt its failure chunk (ending in the sleep), then
the final exhaustion status. -/
theorem backoff_after_every_failed_attempt (outcomes : Nat → Outcome)
    (retries : Nat)
    (h : ∀ i, i ≤ retries → outcomeFails (outcomes i) = true) :
    (generate_code_from_prompt none outcomes retries).events =
      stConnecting ::
        ((List.range (retries + 1)).flatMap
            (fun i => failEvents (outcomes i) i) ++
          [stExhausted (failDetail (outcomes retries))]) ∧
    sleepsOf (generate_code_from_prompt none outcomes retries).events =
      (List.range (retries + 1)).map (fun i => 2 ^ i) := by
  have hchar := genAttempts_allFail outcomes retries 0 "None"
    (fun i _ h2 => h i (by omega))
  have hev : (generate_code_from_prompt none outcomes retries).events =
      stConnecting ::
        ((List.range (retries + 1)).flatMap
            (fun i => failEvents (outcomes i) i) ++
          [stExhausted (failDetail (outcomes retries))]) := by
    unfold generate_code_from_prompt
    dsimp only
    rw [hchar]
    rw [show (0 : Nat) + retries = retries from by omega,
      List.range_eq_range']
  refine ⟨hev, ?_⟩
  rw [hev]
  rw [show stConnecting =
    Ev.status "connecting" "Connecting to AI service..." from rfl]
  rw [sleepsOf_status, sleepsOf_append, sleepsOf_flatMap]
  rw [show sleepsOf [stExhausted (failDetail (outcomes retries))] = []
    from rfl]
  rw [List.append_nil]
  have : ∀ l : List Nat, (∀ i ∈ l, i ≤ retries) →
      (l.flatMap fun i => sleepsOf (failEvents (outcomes i) i)) =
        l.map (fun i => 2 ^ i) := by
    intro l
    induction l with
    | nil => intro _; rfl
    | cons x xs ih =>
      intro hl
      rw [List.flatMap_cons, List.map_cons,
        sleepsOf_failEvents _ _ (h x (hl x (List.mem_cons_self x xs))),
        ih (fun i hi => hl i (List.mem_cons_of_mem _ hi))]
      rfl
  rw [this (List.range (retries + 1))
    (fun i hi => by
      have := List.mem_range.mp hi
      omega)]

/-- Witness for C4's all-fail hypothesis. -/
theorem backoff_after_every_failed_attempt_witness :
    sleepsOf (generate_code_from_prompt none (fun _ => .otherError "e")
      1).events = (List.range 2).map (fun i => 2 ^ i) :=
  (backoff_after_every_failed_attempt (fun _ => .otherError "e") 1
    (fun _ _ => rfl)).2

/-! ### Claim C5: initialisation failure short-circuits -/

/-- C5 (confirmed): when client initialisation raises, the call writes
`connecting` then the `error` status and immediately returns the canned
"AI service is currently unavailable" document, with zero remote completion
attempts and no backoff sleeps, whatever the remote outcomes and retry count
would have been. -/
theorem init_failure_short_circuits (d : String) (outcomes : Nat → Outcome)
    (retries : Nat) :
    generate_code_from_prompt (some d) outcomes retries =
      ⟨[stConnecting, stInitError], cannedUnavailable⟩ ∧
    callsOf (generate_code_from_prompt (some d) outcomes retries).events = 0 ∧
    sleepsOf (generate_code_from_prompt (some d) outcomes retries).events = [] :=
  ⟨rfl, rfl, rfl⟩

/-! ### Claim C9: only the generator touches the shared status -/

/-- C9 (confirmed): `optimize_prompt` (and through it
`rule_based_enhancement`, which is embedded as a pure function because its
body reads and writes no shared state) performs no write to the shared
status value for any prompt and any remote behaviour; the status updates of
a run all come from `generate_code_from_prompt`, which always writes at
least one. -/
theorem optimizer_no_status_writes :
    (∀ (prompt : String) (remote : RemoteCall),
      (optimize_prompt prompt remote).statusWrites = []) ∧
    (∀ (initFailure : Option String) (outcomes : Nat → Outcome)
      (retries : Nat),
      (statusWrites (generate_code_from_prompt initFailure outcomes
        retries).events).head? =
        some ("connecting", "Connecting to AI service...")) := by
  constructor
  · intro p r
    unfold optimize_prompt
    split
    · rfl
    · cases r
      · rfl
      · dsimp only
        split <;> rfl
  · intro initF o retries
    cases initF with
    | some d => rfl
    | none =>
      unfold generate_code_from_prompt
      dsimp only
      rw [show stConnecting =
        Ev.status "connecting" "Connecting to AI service..." from rfl,
        statusWrites_status]
      rfl

/-! ### Claim C10: non-object values pass through `extract_json` -/

/-- C10 (confirmed): any value whose cleaned text parses as JSON is returned
as-is by `extract_json`, including non-object values (arrays, numbers,
strings, booleans); and for the input `"null"` the parse succeeds with the
JSON `null`, which is the very result `extract_json` uses for parse
failures, so that case is indistinguishable from one (e.g. from the
unparseable input `"oops"`). -/
theorem extract_json_passes_non_objects :
    (∀ (s : String) (v : Json), isNonNullNonObj v = true →
      json_loads (cleanResponse s.data) = some v → extract_json s = v) ∧
    extract_json "null" = Json.null ∧
    json_loads (cleanResponse "null".data) = some Json.null ∧
    extract_json "null" = extract_json "oops" := by
  refine ⟨?_, rfl, rfl, rfl⟩
  intro s v _ h
  unfold extract_json
  simp only [h]

/-- Witness for C10's hypotheses at the concrete input `"[1]"`. -/
theorem extract_json_passes_non_objects_witness :
    extract_json "[1]" = Json.arr [Json.num "1"] :=
  extract_json_passes_non_objects.1 "[1]" (Json.arr [Json.num "1"]) rfl rfl

/-! ### Claim C8: the status state machine -/

lemma stateNames_status (s m : String) (l : List Ev) :
    stateNames (.status s m :: l) = s :: stateNames l := by
  simp [stateNames, statusWrites_status]

lemma stateNames_call (i : Nat) (l : List Ev) :
    stateNames (.call i :: l) = stateNames l := by
  simp [stateNames, statusWrites_call]

lemma stateNames_sleep (n : Nat) (l : List Ev) :
    stateNames (.sleep n :: l) = stateNames l := by
  simp [stateNames, statusWrites_sleep]

lemma obs_chain_cons {S : List String} (a : String)
    (hS : List.Chain' (fun x y => observedTransition x y = true) S)
    (hhead : ∀ y, S.head? = some y → observedTransition a y = true) :
    List.Chain' (fun x y => observedTransition x y = true) (a :: S) :=
  List.chain'_cons'.mpr ⟨fun y hy => hhead y hy, hS⟩

/-- Within the loop, the status writes follow the observed machine, and the
first write is `generating` (or directly the final `offline` when no
iteration remains). -/
lemma genAttempts_chain (outcomes : Nat → Outcome) :
    ∀ (remaining idx : Nat) (lastExc : String),
      List.Chain' (fun a b => observedTransition a b = true)
        (stateNames (genAttempts outcomes idx remaining lastExc).events) ∧
      (stateNames (genAttempts outcomes idx remaining
        lastExc).events).head? =
        some (if remaining = 0 then "offline" else "generating") := by
  intro remaining
  induction remaining with
  | zero =>
    intro idx l
    exact ⟨List.chain'_singleton _, rfl⟩
  | succ n ih =>
    intro idx l
    have ih1 := fun d => (ih (idx + 1) d).1
    have ih2 := fun d => (ih (idx + 1) d).2
    unfold genAttempts
    cases houtc : outcomes idx with
    | netError d =>
      dsimp only
      rw [show stGenerating = Ev.status "generating" "Generating code..."
        from rfl,
        show stNetOffline =
          Ev.status "offline" "Network error, AI service is offline."
          from rfl]
      rw [stateNames_status, stateNames_call, stateNames_status,
        stateNames_sleep]
      refine ⟨obs_chain_cons _ (obs_chain_cons _ (ih1 d) ?_) ?_, rfl⟩
      · intro y hy
        rw [ih2 d] at hy
        cases hy
        by_cases hn : n = 0 <;> simp [hn] <;> rfl
      · intro y hy
        cases hy
        rfl
    | otherError d =>
      dsimp only
      rw [show stGenerating = Ev.status "generating" "Generating code..."
        from rfl,
        show stOtherError d =
          Ev.status "error" ("AI service error: " ++ d) from rfl]
      rw [stateNames_status, stateNames_call, stateNames_status,
        stateNames_sleep]
      refine ⟨obs_chain_cons _ (obs_chain_cons _ (ih1 d) ?_) ?_, rfl⟩
      · intro y hy
        rw [ih2 d] at hy
        cases hy
        by_cases hn : n = 0 <;> simp [hn] <;> rfl
      · intro y hy
        cases hy
        rfl
    | reply t =>
      dsimp only
      cases hstep : attemptStep t with
      | abortParse =>
        refine ⟨?_, rfl⟩
        exact List.chain'_cons.mpr ⟨rfl, List.chain'_singleton _⟩
      | success doc =>
        refine ⟨?_, rfl⟩
        exact List.chain'_cons.mpr ⟨rfl, List.chain'_singleton _⟩
      | failure d =>
        dsimp only
        rw [show stGenerating = Ev.status "generating" "Generating code..."
          from rfl,
          show stOnline = Ev.status "online" "AI service is online."
          from rfl,
          show stOtherError d =
            Ev.status "error" ("AI service error: " ++ d) from rfl]
        rw [stateNames_status, stateNames_call, stateNames_status,
          stateNames_status, stateNames_sleep]
        refine ⟨obs_chain_cons _ (obs_chain_cons _ (obs_chain_cons _
          (ih1 d) ?_) ?_) ?_, rfl⟩
        · intro y hy
          rw [ih2 d] at hy
          cases hy
          by_cases hn : n = 0 <;> simp [hn] <;> rfl
        · intro y hy
          cases hy
          rfl
        · intro y hy
          cases hy
          rfl

/-- C8 counterexample: a network failure on attempt 0 followed by a
successful attempt 1 produces the write sequence `connecting, generating,
offline, generating, online` within a single call — the `offline` state is
overwritten by `generating` in the same call, refuting the claimed machine
in which `offline` is terminal per call. -/
theorem status_machine_claim_fails :
    stateNames (generate_code_from_prompt none
      (fun i => if i = 0 then .netError "x"
                else .reply "\x7b\"html\":\"<p>a</p>\"\x7d") 1).events =
      ["connecting", "generating", "offline", "generating", "online"] ∧
    ¬ List.Chain' (fun a b => claimedTransition a b = true)
      ["connecting", "generating", "offline", "generating", "online"] :=
  ⟨rfl, by
    intro h
    rw [List.chain'_cons, List.chain'_cons, List.chain'_cons,
      List.chain'_cons] at h
    exact absurd h.2.2.1 (by decide)⟩

/-- C8 (corrected): every pair of consecutive status writes within one call
follows the machine `connecting → {generating, error}`, `generating →
{online, offline, error}`, extended by the transitions the retry loop
actually performs: `online → error` (document assembly raised after the
`online` write), `offline/error → generating` (a further attempt follows a
failed one), and `offline/error → offline` (the final exhaustion write).
`online`, and the final `offline`/`error` a call ends in, are then only
overwritten by the next call. -/
theorem status_machine_observed (initFailure : Option String)
    (outcomes : Nat → Outcome) (retries : Nat) :
    List.Chain' (fun a b => observedTransition a b = true)
      (stateNames (generate_code_from_prompt initFailure outcomes
        retries).events) := by
  cases initFailure with
  | some d =>
    exact List.chain'_cons.mpr ⟨rfl, List.chain'_singleton _⟩
  | none =>
    obtain ⟨h1, h2⟩ := genAttempts_chain outcomes (retries + 1) 0 "None"
    unfold generate_code_from_prompt
    dsimp only
    rw [show stConnecting =
      Ev.status "connecting" "Connecting to AI service..." from rfl]
    rw [stateNames_status]
    refine obs_chain_cons _ h1 ?_
    intro y hy
    rw [h2] at hy
    cases hy
    rfl

/-! ### Claim C2: document splicing semantics -/

lemma splitOnAux_ne_nil (old : List Char) :
    ∀ (fuel : Nat) (cs : List Char), splitOnAux old fuel cs ≠ [] := by
  intro fuel
  induction fuel with
  | zero => intro cs; simp [splitOnAux]
  | succ n ih =>
    intro cs
    cases cs with
    | nil => simp [splitOnAux]
    | cons c rest =>
      unfold splitOnAux
      split
      · simp
      · cases h : splitOnAux old n rest with
        | nil => simp
        | cons p m => simp

lemma intercalate_head_cons (sep p : List Char) (c : Char)
    (M : List (List Char)) :
    List.intercalate sep ((c :: p) :: M) =
      c :: List.intercalate sep (p :: M) := by
  cases M <;> simp [List.intercalate, List.intersperse]

lemma intercalate_nil_cons (sep p : List Char) (M : List (List Char)) :
    List.intercalate sep ([] :: p :: M) =
      sep ++ List.intercalate sep (p :: M) := by
  simp [List.intercalate, List.intersperse]

/-- Replace-all coincides with split-and-interleave, fuel for fuel. -/
lemma replaceAux_eq_intercalate (old new : List Char) :
    ∀ (fuel : Nat) (cs : List Char),
      replaceAux old new fuel cs =
        List.intercalate new (splitOnAux old fuel cs) := by
  intro fuel
  induction fuel with
  | zero =>
    intro cs
    simp [replaceAux, splitOnAux, List.intercalate, List.intersperse]
  | succ n ih =>
    intro cs
    cases cs with
    | nil =>
      simp [replaceAux, splitOnAux, List.intercalate, List.intersperse]
    | cons c rest =>
      rw [replaceAux, splitOnAux]
      split
      · rw [ih]
        cases hL : splitOnAux old n ((c :: rest).drop old.length) with
        | nil => exact absurd hL (splitOnAux_ne_nil old n _)
        | cons p m => rw [intercalate_nil_cons]
      · cases hsplit : splitOnAux old n rest with
        | nil => exact absurd hsplit (splitOnAux_ne_nil old n rest)
        | cons p m =>
          rw [ih, hsplit, intercalate_head_cons]

lemma pyReplace_nonempty (s old new : String)
    (h : old.data.isEmpty = false) :
    pyReplace s old new = String.mk (spliceAll s.data old.data new.data) := by
  unfold pyReplace spliceAll
  rw [if_neg (show ¬(old.data.isEmpty = true) by simp [h])]
  rw [replaceAux_eq_intercalate]

/-- C2 counterexample: on an `html` string containing two `</head>`
substrings, the code's assembly (Python `str.replace`, all occurrences)
differs from the specification's first-occurrence-only splicing. -/
theorem splice_first_occurrence_fails :
    assembleDoc "<head></head><p></head><body></body>" "c" "j" =
      "<head><style>c</style></head><p><style>c</style></head><body><script>j</script></body>" ∧
    specAssembleDocFirst "<head></head><p></head><body></body>" "c" "j" =
      "<head><style>c</style></head><p></head><body><script>j</script></body>" ∧
    ("<head><style>c</style></head><p><style>c</style></head><body><script>j</script></body>" : String) ≠
      "<head><style>c</style></head><p></head><body><script>j</script></body>" :=
  ⟨rfl, rfl, by decide⟩

/-- C2 (corrected): the final document is assembled by literal-substring
replacement of every (leftmost, non-overlapping) occurrence of `</head>`
with the style block and then of `</body>` with the script block, here
characterised by split-and-interleave; for the concrete reply of the claim
the returned document is exactly the expected string. -/
theorem assemble_replaces_every_occurrence :
    (∀ html css js, assembleDoc html css js = specAssembleDoc html css js) ∧
    (generate_code_from_prompt none
      (fun _ => .reply "\x7b\"html\":\"<html><head></head><body></body></html>\",\"css\":\"body\x7bcolor:red\x7d\",\"js\":\"console.log(1)\",\"name\":\"X\"\x7d")
      2).output =
      "<html><head><style>body\x7bcolor:red\x7d</style></head><body><script>console.log(1)</script></body></html>" := by
  refine ⟨?_, rfl⟩
  intro html css js
  unfold assembleDoc specAssembleDoc
  rw [pyReplace_nonempty html "</head>"
    ("<style>" ++ css ++ "</style></head>") rfl]
  rw [pyReplace_nonempty _ "</body>"
    ("<script>" ++ js ++ "</script></body>") rfl]

/-! ### Claim C7: when the optimiser rewrites -/

/-- C7 counterexample: for the prompt `"ok"` and a remote rewrite that
echoes `"ok"` back, `optimize_prompt` returns the input unchanged although
the trimmed length is below 20 — refuting "returns its input prompt
unchanged if and only if the trimmed prompt has length at least 20 and is
not generic" (and the reading of "never returns the input unchanged" as
string equality). -/
theorem optimize_echo_returns_input :
    (optimize_prompt "ok" (.returns "ok")).result = "ok" ∧
    ((20 ≤ (pyStrip "ok".data).length && !is_generic "ok") = false) :=
  ⟨rfl, by decide⟩

/-- C7 (corrected): `optimize_prompt` skips enhancement (returning the
prompt untouched without any remote call or fallback) exactly when the
trimmed prompt has length at least 20 and is not a case-insensitive match
of the generic-phrase set; whenever it skips, the result is the input
itself; and for the length-2 prompt `"ok"` it always attempts enhancement —
though the enhanced result can still coincide with the input, e.g. when the
remote echoes it. -/
theorem optimize_skips_iff_specific :
    (∀ (prompt : String) (remote : RemoteCall),
      ((optimize_prompt prompt remote).attemptedEnhancement = false ↔
        (20 ≤ (pyStrip prompt.data).length ∧ is_generic prompt = false))) ∧
    (∀ (prompt : String) (remote : RemoteCall),
      (optimize_prompt prompt remote).attemptedEnhancement = false →
      (optimize_prompt prompt remote).result = prompt) ∧
    (∀ remote : RemoteCall,
      (optimize_prompt "ok" remote).attemptedEnhancement = true) := by
  refine ⟨?_, ?_, ?_⟩
  · intro p r
    unfold optimize_prompt
    split
    · rename_i hcond
      rw [Bool.and_eq_true, decide_eq_true_eq, Bool.not_eq_true'] at hcond
      simp only [true_iff]
      exact hcond
    · rename_i hcond
      rw [Bool.and_eq_true] at hcond
      constructor
      · intro hfalse
        exfalso
        cases r with
        | raises d => exact Bool.noConfusion hfalse
        | returns t =>
          dsimp only at hfalse
          revert hfalse
          split <;> intro hfalse <;> exact Bool.noConfusion hfalse
      · intro hyp
        exfalso
        apply hcond
        exact ⟨decide_eq_true hyp.1, by rw [Bool.not_eq_true', hyp.2]⟩
  · intro p r
    unfold optimize_prompt
    split
    · intro _; rfl
    · intro hfalse
      exfalso
      cases r with
      | raises d => exact Bool.noConfusion hfalse
      | returns t =>
        dsimp only at hfalse
        revert hfalse
        split <;> intro hfalse <;> exact Bool.noConfusion hfalse
  · intro r
    unfold optimize_prompt
    rw [if_neg (by decide)]
    cases r with
    | raises d => rfl
    | returns t =>
      dsimp only
      split <;> rfl

/-- Witness for C7 at the specification's concrete long prompt: the skip
condition holds and the prompt is returned unchanged. -/
theorem optimize_skips_iff_specific_witness :
    (optimize_prompt
      "Build a personal portfolio site with a hero section, project gallery, and contact form, styled with a dark theme"
      (.raises "e")).result =
    "Build a personal portfolio site with a hero section, project gallery, and contact form, styled with a dark theme" :=
  optimize_skips_iff_specific.2.1 _ (.raises "e") (by decide)

/-! ### Claim C1: the parse-abort condition of an attempt -/

/-- C1 counterexample: the reply consisting of an empty JSON object refutes
"aborts exactly when extractJson returns null" and "for every non-null
extracted object it sets status to online and returns the spliced
document": extraction yields the non-null empty object, yet the call aborts
with the `error` status and the canned could-not-parse document, and no
`online` status is ever written. -/
theorem empty_object_reply_aborts :
    extract_json "\x7b\x7d" = Json.obj [] ∧
    Json.obj [] ≠ Json.null ∧
    generate_code_from_prompt none (fun _ => .reply "\x7b\x7d") 2 =
      ⟨[stConnecting, stGenerating, .call 0, stParseError],
        cannedParseError⟩ :=
  ⟨rfl, fun h => Json.noConfusion h, rfl⟩

/-- C1 (corrected): within an attempt, after the reply text is obtained, the
call aborts with status `error` and the canned could-not-parse document
(with no further attempts) exactly when the extracted value is falsy in
Python's sense — `null` or an empty/zero value such as the empty object;
for every non-falsy extracted object whose `html` value is a string, it
sets status to `online` and returns the spliced document, the values of
`html`, `css` and `js` defaulting to the empty string when absent. -/
theorem attempt_parse_abort_iff_falsy (outcomes : Nat → Outcome)
    (idx remaining : Nat) (lastExc : String) (response : String)
    (hout : outcomes idx = .reply response) :
    (pyFalsy (extract_json response) = true →
      genAttempts outcomes idx (remaining + 1) lastExc =
        ⟨[stGenerating, .call idx, stParseError], cannedParseError⟩) ∧
    (∀ fs html,
      extract_json response = .obj fs →
      pyFalsy (.obj fs) = false →
      pyDictGet fs "html" (.str "") = .str html →
      genAttempts outcomes idx (remaining + 1) lastExc =
        ⟨[stGenerating, .call idx, stOnline],
          assembleDoc html (pyStr (pyDictGet fs "css" (.str "")))
            (pyStr (pyDictGet fs "js" (.str "")))⟩) := by
  constructor
  · intro hfalsy
    unfold genAttempts
    rw [hout]
    have hstep : attemptStep response = .abortParse := by
      unfold attemptStep
      simp only [hfalsy, if_true]
    dsimp only
    rw [hstep]
  · intro fs html hobj hfalsy hhtml
    unfold genAttempts
    rw [hout]
    have hstep : attemptStep response =
        .success (assembleDoc html (pyStr (pyDictGet fs "css" (.str "")))
          (pyStr (pyDictGet fs "js" (.str "")))) := by
      unfold attemptStep
      simp only [hobj, hfalsy, if_false, Bool.false_eq_true, hhtml, isStrVal]
    dsimp only
    rw [hstep]

/-- Witness for C1 at a concrete reply carrying only an `html` string. -/
theorem attempt_parse_abort_iff_falsy_witness :
    genAttempts (fun _ => .reply "\x7b\"html\":\"<h1>hi</h1>\"\x7d") 0 3
      "None" =
    ⟨[stGenerating, .call 0, stOnline],
      assembleDoc "<h1>hi</h1>"
        (pyStr (pyDictGet [("html", Json.str "<h1>hi</h1>")] "css"
          (.str "")))
        (pyStr (pyDictGet [("html", Json.str "<h1>hi</h1>")] "js"
          (.str "")))⟩ :=
  (attempt_parse_abort_iff_falsy
    (fun _ => .reply "\x7b\"html\":\"<h1>hi</h1>\"\x7d") 0 2 "None"
    "\x7b\"html\":\"<h1>hi</h1>\"\x7d" rfl).2
    [("html", Json.str "<h1>hi</h1>")] "<h1>hi</h1>" rfl rfl rfl

/-! ### Claim C6: fenced JSON round-trips through `extract_json`

The development below shows that for any text `J` that `json.loads`
accepts, `extract_json` applied to the fenced form <code>```json\nJ\n```</code>
returns exactly the parsed value.  The work is in showing that the
fence-stripping pipeline leaves precisely the whitespace-stripped document,
and that the scanner's consumed span neither starts nor ends in whitespace
(so Python's `strip`, which strips slightly more than JSON whitespace,
cannot eat into it). -/

lemma jsonWs_pySpace {c : Char} (h : jsonWsChar c = true) :
    pySpaceChar c = true := by
  simp only [jsonWsChar, Bool.or_eq_true] at h
  simp only [pySpaceChar, Bool.or_eq_true]
  tauto

lemma dropWhile_cons_neg (p : Char → Bool) (c : Char) (l : List Char)
    (h : p c = false) : (c :: l).dropWhile p = c :: l := by
  simp [List.dropWhile_cons, h]

lemma dropWhile_append_all (p : Char → Bool) :
    ∀ (a b : List Char), (∀ c ∈ a, p c = true) →
      (a ++ b).dropWhile p = b.dropWhile p := by
  intro a
  induction a with
  | nil => intro b _; rfl
  | cons c cs ih =>
    intro b h
    rw [List.cons_append, List.dropWhile_cons,
      if_pos (h c (List.mem_cons_self c cs)), ih b
      (fun x hx => h x (List.mem_cons_of_mem _ hx))]

lemma dropWhile_append_left (p : Char → Bool) :
    ∀ (a b : List Char), a.dropWhile p ≠ [] →
      (a ++ b).dropWhile p = a.dropWhile p ++ b := by
  intro a
  induction a with
  | nil => intro b h; exact absurd rfl h
  | cons c cs ih =>
    intro b h
    cases hp : p c with
    | true =>
      rw [List.dropWhile_cons, if_pos hp] at h
      rw [List.cons_append, List.dropWhile_cons, if_pos hp,
        List.dropWhile_cons, if_pos hp, ih b h]
    | false =>
      rw [List.cons_append, List.dropWhile_cons, if_neg (by simp [hp]),
        List.dropWhile_cons, if_neg (by simp [hp]), List.cons_append]

lemma dropWhile_congr_of {p q : Char → Bool}
    (hsub : ∀ c, q c = true → p c = true) :
    ∀ (l : List Char),
      (∀ c, (l.dropWhile q).head? = some c → p c = false) →
      l.dropWhile p = l.dropWhile q := by
  intro l
  induction l with
  | nil => intro _; rfl
  | cons c cs ih =>
    intro hhead
    cases hq : q c with
    | true =>
      rw [List.dropWhile_cons, if_pos (hsub c hq), List.dropWhile_cons,
        if_pos hq]
      refine ih ?_
      intro c' hc'
      refine hhead c' ?_
      rw [List.dropWhile_cons, if_pos hq]
      exact hc'
    | false =>
      have hc : p c = false := by
        refine hhead c ?_
        rw [List.dropWhile_cons, if_neg (by simp [hq])]
        rfl
      rw [List.dropWhile_cons, if_neg (by simp [hc]),
        List.dropWhile_cons, if_neg (by simp [hq])]

lemma getLast?_of_suffix {l1 l2 : List Char} (h : l1 <:+ l2) {c : Char}
    (hc : l1.getLast? = some c) : l2.getLast? = some c := by
  obtain ⟨pre, rfl⟩ := h
  rw [List.getLast?_append, hc]
  rfl

lemma takeWhile_all (p : Char → Bool) (l : List Char) :
    ∀ c ∈ l.takeWhile p, p c = true := by
  induction l with
  | nil => intro c hc; cases hc
  | cons x xs ih =>
    intro c hc
    rw [List.takeWhile_cons] at hc
    by_cases hp : p x
    · rw [if_pos hp] at hc
      rcases List.mem_cons.mp hc with rfl | hmem
      · exact hp
      · exact ih c hmem
    · rw [if_neg hp] at hc
      cases hc

/-- The consumed span of a successful string-body parse: it is nonempty and
ends with the closing quote. -/
lemma parseStrBody_span :
    ∀ (fuel : Nat) (cs : List Char) (s r : List Char),
      parseStrBody fuel cs = some (s, r) →
      ∃ p, cs = p ++ r ∧ p ≠ [] ∧ p.getLast? = some '"' := by
  intro fuel
  induction fuel with
  | zero => intro cs s r h; exact absurd h (by simp [parseStrBody])
  | succ n ih =>
    intro cs s r h
    rcases cs with _ | ⟨c, rest⟩
    · exact absurd h (by simp [parseStrBody])
    rw [parseStrBody.eq_def] at h
    dsimp only at h
    by_cases hq : (c == '"') = true
    · rw [if_pos hq] at h
      simp only [Option.some.injEq, Prod.mk.injEq] at h
      obtain ⟨rfl, rfl⟩ := h
      refine ⟨[c], rfl, by simp, ?_⟩
      rw [beq_iff_eq] at hq
      rw [hq]
      rfl
    · rw [if_neg hq] at h
      by_cases hb : (c == '\\') = true
      · rw [if_pos hb] at h
        rcases rest with _ | ⟨e, rest2⟩
        · exact absurd h (by simp)
        dsimp only at h
        by_cases hu : (e == 'u') = true
        · rw [if_pos hu] at h
          rcases rest2 with _ | ⟨a, rest3⟩
          · exact absurd h (by simp)
          rcases rest3 with _ | ⟨b, rest4⟩
          · exact absurd h (by simp)
          rcases rest4 with _ | ⟨c2, rest5⟩
          · exact absurd h (by simp)
          rcases rest5 with _ | ⟨d, rest6⟩
          · exact absurd h (by simp)
          dsimp only at h
          rcases hha : hexVal a with _ | ha <;> rw [hha] at h
          · exact absurd h (by simp)
          rcases hhb : hexVal b with _ | vb <;> rw [hhb] at h
          · exact absurd h (by simp)
          rcases hhc : hexVal c2 with _ | vc <;> rw [hhc] at h
          · exact absurd h (by simp)
          rcases hhd : hexVal d with _ | vd <;> rw [hhd] at h
          · exact absurd h (by simp)
          dsimp only at h
          rcases hsb : parseStrBody n rest6 with _ | ⟨s', r'⟩ <;>
            rw [hsb] at h
          · exact absurd h (by simp)
          dsimp only at h
          simp only [Option.some.injEq, Prod.mk.injEq] at h
          obtain ⟨rfl, rfl⟩ := h
          obtain ⟨p', hp1, hp2, hp3⟩ := ih rest6 s' r' hsb
          refine ⟨[c, e, a, b, c2, d] ++ p', ?_, by simp, ?_⟩
          · rw [hp1]
            simp
          · exact getLast?_of_suffix (List.suffix_append _ _) hp3
        · rw [if_neg hu] at h
          rcases hesc : escChar e with _ | ch <;> rw [hesc] at h
          · exact absurd h (by simp)
          dsimp only at h
          rcases hsb : parseStrBody n rest2 with _ | ⟨s', r'⟩ <;>
            rw [hsb] at h
          · exact absurd h (by simp)
          dsimp only at h
          simp only [Option.some.injEq, Prod.mk.injEq] at h
          obtain ⟨rfl, rfl⟩ := h
          obtain ⟨p', hp1, hp2, hp3⟩ := ih rest2 s' r' hsb
          refine ⟨[c, e] ++ p', ?_, by simp, ?_⟩
          · rw [hp1]
            simp
          · exact getLast?_of_suffix (List.suffix_append _ _) hp3
      · rw [if_neg hb] at h
        by_cases hctl : c.toNat < 32
        · rw [if_pos hctl] at h
          exact absurd h (by simp)
        · rw [if_neg hctl] at h
          rcases hsb : parseStrBody n rest with _ | ⟨s', r'⟩ <;>
            rw [hsb] at h
          · exact absurd h (by simp)
          dsimp only at h
          simp only [Option.some.injEq, Prod.mk.injEq] at h
          obtain ⟨rfl, rfl⟩ := h
          obtain ⟨p', hp1, hp2, hp3⟩ := ih rest s' r' hsb
          refine ⟨[c] ++ p', ?_, by simp, ?_⟩
          · rw [hp1]
            simp
          · exact getLast?_of_suffix (List.suffix_append _ _) hp3

/-- The consumed span of the integer part: nonempty, ends with a digit. -/
lemma parseIntPart_span (cs i r : List Char)
    (h : parseIntPart cs = some (i, r)) :
    cs = i ++ r ∧ i ≠ [] ∧
      (∀ c, i.getLast? = some c → isDigitChar c = true) := by
  rcases cs with _ | ⟨c, rest⟩
  · exact absurd h (by simp [parseIntPart])
  rw [parseIntPart.eq_def] at h
  dsimp only at h
  by_cases h0 : (c == '0') = true
  · rw [if_pos h0] at h
    simp only [Option.some.injEq, Prod.mk.injEq] at h
    obtain ⟨rfl, rfl⟩ := h
    rw [beq_iff_eq] at h0
    subst h0
    exact ⟨rfl, by simp, fun x hx => by
      simp only [List.getLast?_singleton, Option.some.injEq] at hx
      subst hx
      decide⟩
  · rw [if_neg h0] at h
    by_cases hds : ((c :: rest).takeWhile isDigitChar).isEmpty = true
    · rw [if_pos hds] at h
      exact absurd h (by simp)
    · rw [if_neg hds] at h
      simp only [Option.some.injEq, Prod.mk.injEq] at h
      obtain ⟨rfl, rfl⟩ := h
      refine ⟨(List.takeWhile_append_dropWhile _ _).symm, ?_, ?_⟩
      · intro hnil
        rw [hnil] at hds
        exact hds rfl
      · intro x hx
        exact List.mem_takeWhile_imp (List.mem_of_mem_getLast? hx)

/-- The fraction part splits its input and, when consumed, ends with a
digit. -/
lemma parseFracPart_span (cs : List Char) :
    cs = (parseFracPart cs).1 ++ (parseFracPart cs).2 ∧
    (∀ c, (parseFracPart cs).1.getLast? = some c →
      isDigitChar c = true) := by
  rcases cs with _ | ⟨c, rest⟩
  · exact ⟨rfl, by intro c hc; cases hc⟩
  rw [parseFracPart.eq_def]
  dsimp only
  by_cases hdot : (c == '.') = true
  · rw [if_pos hdot]
    by_cases hds : (rest.takeWhile isDigitChar).isEmpty = true
    · rw [if_pos hds]
      exact ⟨rfl, by intro x hx; cases hx⟩
    · rw [if_neg hds]
      dsimp only
      constructor
      · rw [beq_iff_eq] at hdot
        subst hdot
        rw [List.cons_append]
        exact congrArg _ (List.takeWhile_append_dropWhile _ _).symm
      · intro x hx
        have hne : rest.takeWhile isDigitChar ≠ [] := by
          intro hnil
          rw [hnil] at hds
          exact hds rfl
        rcases hy : (rest.takeWhile isDigitChar).getLast? with _ | y
        · exact absurd (List.getLast?_eq_none_iff.mp hy) hne
        rw [getLast?_of_suffix (List.suffix_cons _ _) hy] at hx
        have hxy := Option.some.inj hx
        subst hxy
        exact List.mem_takeWhile_imp (List.mem_of_mem_getLast? hy)
  · rw [if_neg hdot]
    exact ⟨rfl, by intro x hx; cases hx⟩

/-- The exponent part splits its input and, when consumed, ends with a
digit. -/
lemma parseExpPart_span (cs : List Char) :
    cs = (parseExpPart cs).1 ++ (parseExpPart cs).2 ∧
    (∀ c, (parseExpPart cs).1.getLast? = some c →
      isDigitChar c = true) := by
  have hlast : ∀ (pre : List Char) (ds : List Char), ds ≠ [] →
      (∀ x ∈ ds, isDigitChar x = true) →
      (∀ c, (pre ++ ds).getLast? = some c → isDigitChar c = true) := by
    intro pre ds hne hds c hc
    rcases hy : ds.getLast? with _ | y
    · exact absurd (List.getLast?_eq_none_iff.mp hy) hne
    rw [getLast?_of_suffix (List.suffix_append pre ds) hy] at hc
    have hxy := Option.some.inj hc
    subst hxy
    exact hds y (List.mem_of_mem_getLast? hy)
  rcases cs with _ | ⟨e, rest⟩
  · exact ⟨rfl, by intro c hc; cases hc⟩
  rw [parseExpPart.eq_def]
  dsimp only
  by_cases he : (e == 'e' || e == 'E') = true
  · rw [if_pos he]
    rcases rest with _ | ⟨s, rest2⟩
    · exact ⟨rfl, by intro c hc; cases hc⟩
    dsimp only
    by_cases hs : (s == '+' || s == '-') = true
    · rw [if_pos hs]
      by_cases hds : (rest2.takeWhile isDigitChar).isEmpty = true
      · rw [if_pos hds]
        exact ⟨rfl, by intro c hc; cases hc⟩
      · rw [if_neg hds]
        dsimp only
        have hne : rest2.takeWhile isDigitChar ≠ [] := by
          intro hnil; rw [hnil] at hds; exact hds rfl
        refine ⟨?_, ?_⟩
        · rw [List.cons_append, List.cons_append]
          exact congrArg _ (congrArg _
            (List.takeWhile_append_dropWhile _ _).symm)
        · exact fun c hc => hlast [e, s] _ hne
            (fun x hx => List.mem_takeWhile_imp hx) c hc
    · rw [if_neg hs]
      by_cases hds : ((s :: rest2).takeWhile isDigitChar).isEmpty = true
      · rw [if_pos hds]
        exact ⟨rfl, by intro c hc; cases hc⟩
      · rw [if_neg hds]
        dsimp only
        have hne : (s :: rest2).takeWhile isDigitChar ≠ [] := by
          intro hnil; rw [hnil] at hds; exact hds rfl
        refine ⟨?_, ?_⟩
        · rw [List.cons_append]
          exact congrArg _ (List.takeWhile_append_dropWhile _ _).symm
        · exact fun c hc => hlast [e] _ hne
            (fun x hx => List.mem_takeWhile_imp hx) c hc
  · rw [if_neg he]
    exact ⟨rfl, by intro c hc; cases hc⟩

/-- The consumed span of a successful unsigned-number parse: nonempty, ends
with a digit. -/
lemma parseNumPos_span (cs t r : List Char)
    (h : parseNumPos cs = some (t, r)) :
    cs = t ++ r ∧ t ≠ [] ∧
      (∀ c, t.getLast? = some c → isDigitChar c = true) := by
  unfold parseNumPos at h
  rcases hint : parseIntPart cs with _ | ⟨i, r1⟩ <;> rw [hint] at h
  · exact absurd h (by simp)
  dsimp only at h
  rcases hfrac : parseFracPart r1 with ⟨f, r2⟩
  rw [hfrac] at h
  dsimp only at h
  rcases hexp : parseExpPart r2 with ⟨x, r3⟩
  rw [hexp] at h
  dsimp only at h
  simp only [Option.some.injEq, Prod.mk.injEq] at h
  obtain ⟨rfl, rfl⟩ := h
  obtain ⟨hi1, hi2, hi3⟩ := parseIntPart_span cs i r1 hint
  have hf := parseFracPart_span r1
  rw [hfrac] at hf
  have hx := parseExpPart_span r2
  rw [hexp] at hx
  dsimp only at hf hx
  refine ⟨?_, ?_, ?_⟩
  · rw [hi1, hf.1, hx.1]
    simp [List.append_assoc]
  · intro hnil
    exact hi2 (by
      rcases i with _ | _
      · rfl
      · simp at hnil)
  · intro c hc
    rw [List.append_assoc, List.getLast?_append] at hc
    rcases hor : (f ++ x).getLast? with _ | y
    · rw [hor, Option.none_or] at hc
      exact hi3 c hc
    · rw [hor, show (some y).or i.getLast? = some y from rfl] at hc
      obtain rfl := Option.some.inj hc
      rw [List.getLast?_append] at hor
      rcases hox : x.getLast? with _ | z
      · rw [hox, Option.none_or] at hor
        exact hf.2 _ hor
      · rw [hox, show (some z).or f.getLast? = some z from rfl] at hor
        obtain rfl := Option.some.inj hor
        exact hx.2 _ hox

/-- The consumed span of a successful number parse: nonempty, ends with a
digit (in particular not whitespace). -/
lemma parseNum_span (cs t r : List Char) (h : parseNum cs = some (t, r)) :
    cs = t ++ r ∧ t ≠ [] ∧
      (∀ c, t.getLast? = some c → isDigitChar c = true) := by
  rcases cs with _ | ⟨c, rest⟩
  · exact absurd h (by simp [parseNum])
  rw [parseNum.eq_def] at h
  dsimp only at h
  by_cases hm : (c == '-') = true
  · rw [if_pos hm] at h
    rcases hpos : parseNumPos rest with _ | ⟨t', r'⟩ <;> rw [hpos] at h
    · exact absurd h (by simp)
    dsimp only at h
    simp only [Option.some.injEq, Prod.mk.injEq] at h
    obtain ⟨rfl, rfl⟩ := h
    obtain ⟨hp1, hp2, hp3⟩ := parseNumPos_span rest t' r' hpos
    refine ⟨by rw [hp1, beq_iff_eq.mp hm]; rfl, by simp, ?_⟩
    intro x hx
    rcases hy : t'.getLast? with _ | y
    · exact absurd (List.getLast?_eq_none_iff.mp hy) hp2
    rw [getLast?_of_suffix (List.suffix_cons '-' t') hy] at hx
    obtain rfl := Option.some.inj hx
    exact hp3 _ hy
  · rw [if_neg hm] at h
    exact parseNumPos_span _ t r h

/-- Values never start with whitespace: the dispatch of the scanner has no
branch for a whitespace character (for the extended Python `strip` set as
well as for JSON whitespace). -/
lemma parseF_value_head {f : Nat} {c : Char} {rest : List Char}
    {y : Json × List Char} (h : parseF f .value (c :: rest) = some y) :
    pySpaceChar c = false := by
  rcases f with _ | f
  · exact absurd h (by simp [parseF])
  by_contra hws
  rw [Bool.not_eq_false] at hws
  have hc : c = ' ' ∨ c = '\t' ∨ c = '\n' ∨ c = '\r' ∨ c = '\x0b' ∨
      c = '\x0c' := by
    have := hws
    simp only [pySpaceChar, Bool.or_eq_true, beq_iff_eq] at this
    tauto
  rcases hc with rfl | rfl | rfl | rfl | rfl | rfl <;>
    simp [parseF, lbrace, parseNum, parseNumPos, parseIntPart,
      List.takeWhile, isDigitChar] at h

/-- The scanner only consumes from the front: the rest it returns is a
suffix of its input. -/
lemma parseF_suffix :
    ∀ (fuel : Nat) (m : PMode) (cs : List Char) (x : Json) (r : List Char),
      parseF fuel m cs = some (x, r) → r <:+ cs := by
  intro fuel
  induction fuel with
  | zero => intro m cs x r h; exact absurd h (by simp [parseF])
  | succ n ih =>
    intro m cs x r h
    cases m with
    | value =>
      rcases cs with _ | ⟨c, rest⟩
      · exact absurd h (by simp [parseF])
      rw [parseF.eq_def] at h
      dsimp only at h
      by_cases h1 : (c == lbrace) = true
      · rw [if_pos h1] at h
        rcases hu : skipWs rest with _ | ⟨c2, r2⟩ <;> rw [hu] at h
        · exact absurd h (by simp)
        dsimp only at h
        have hsfx : c2 :: r2 <:+ rest := by
          rw [← hu]; exact List.dropWhile_suffix _
        by_cases h2 : (c2 == rbrace) = true
        · rw [if_pos h2] at h
          simp only [Option.some.injEq, Prod.mk.injEq] at h
          obtain ⟨rfl, rfl⟩ := h
          exact (((List.suffix_cons c2 r2).trans hsfx).trans
            (List.suffix_cons c rest))
        · rw [if_neg h2] at h
          exact ((ih .members _ x r h).trans hsfx).trans
            (List.suffix_cons c rest)
      · rw [if_neg h1] at h
        by_cases h1b : (c == '[') = true
        · rw [if_pos h1b] at h
          rcases hu : skipWs rest with _ | ⟨c2, r2⟩ <;> rw [hu] at h
          · exact absurd h (by simp)
          dsimp only at h
          have hsfx : c2 :: r2 <:+ rest := by
            rw [← hu]; exact List.dropWhile_suffix _
          by_cases h2 : (c2 == ']') = true
          · rw [if_pos h2] at h
            simp only [Option.some.injEq, Prod.mk.injEq] at h
            obtain ⟨rfl, rfl⟩ := h
            exact (((List.suffix_cons c2 r2).trans hsfx).trans
              (List.suffix_cons c rest))
          · rw [if_neg h2] at h
            exact ((ih .elements _ x r h).trans hsfx).trans
              (List.suffix_cons c rest)
        · rw [if_neg h1b] at h
          by_cases h1c : (c == '"') = true
          · rw [if_pos h1c] at h
            rcases hsb : parseStrBody (rest.length + 1) rest
              with _ | ⟨s, r'⟩ <;> rw [hsb] at h
            · exact absurd h (by simp)
            dsimp only at h
            simp only [Option.some.injEq, Prod.mk.injEq] at h
            obtain ⟨rfl, rfl⟩ := h
            obtain ⟨p, hp1, _, _⟩ := parseStrBody_span _ rest s r' hsb
            exact List.IsSuffix.trans (⟨p, hp1.symm⟩ : r' <:+ rest)
              (List.suffix_cons c rest)
          · rw [if_neg h1c] at h
            by_cases h1d : (c == 't') = true
            · rw [if_pos h1d] at h
              by_cases hpre : "rue".data.isPrefixOf rest = true
              · rw [if_pos hpre] at h
                simp only [Option.some.injEq, Prod.mk.injEq] at h
                obtain ⟨rfl, rfl⟩ := h
                exact (List.drop_suffix 3 rest).trans (List.suffix_cons c rest)
              · rw [if_neg hpre] at h
                exact absurd h (by simp)
            · rw [if_neg h1d] at h
              by_cases h1e : (c == 'f') = true
              · rw [if_pos h1e] at h
                by_cases hpre : "alse".data.isPrefixOf rest = true
                · rw [if_pos hpre] at h
                  simp only [Option.some.injEq, Prod.mk.injEq] at h
                  obtain ⟨rfl, rfl⟩ := h
                  exact (List.drop_suffix 4 rest).trans
                    (List.suffix_cons c rest)
                · rw [if_neg hpre] at h
                  exact absurd h (by simp)
              · rw [if_neg h1e] at h
                by_cases h1f : (c == 'n') = true
                · rw [if_pos h1f] at h
                  by_cases hpre : "ull".data.isPrefixOf rest = true
                  · rw [if_pos hpre] at h
                    simp only [Option.some.injEq, Prod.mk.injEq] at h
                    obtain ⟨rfl, rfl⟩ := h
                    exact (List.drop_suffix 3 rest).trans
                      (List.suffix_cons c rest)
                  · rw [if_neg hpre] at h
                    exact absurd h (by simp)
                · rw [if_neg h1f] at h
                  by_cases h1g : (c == 'N') = true
                  · rw [if_pos h1g] at h
                    by_cases hpre : "aN".data.isPrefixOf rest = true
                    · rw [if_pos hpre] at h
                      simp only [Option.some.injEq, Prod.mk.injEq] at h
                      obtain ⟨rfl, rfl⟩ := h
                      exact (List.drop_suffix 2 rest).trans
                        (List.suffix_cons c rest)
                    · rw [if_neg hpre] at h
                      exact absurd h (by simp)
                  · rw [if_neg h1g] at h
                    by_cases h1h : (c == 'I') = true
                    · rw [if_pos h1h] at h
                      by_cases hpre : "nfinity".data.isPrefixOf rest = true
                      · rw [if_pos hpre] at h
                        simp only [Option.some.injEq, Prod.mk.injEq] at h
                        obtain ⟨rfl, rfl⟩ := h
                        exact (List.drop_suffix 7 rest).trans
                          (List.suffix_cons c rest)
                      · rw [if_neg hpre] at h
                        exact absurd h (by simp)
                    · rw [if_neg h1h] at h
                      by_cases h1i : (c == '-') = true
                      · rw [if_pos h1i] at h
                        by_cases hpre :
                            "Infinity".data.isPrefixOf rest = true
                        · rw [if_pos hpre] at h
                          simp only [Option.some.injEq, Prod.mk.injEq] at h
                          obtain ⟨rfl, rfl⟩ := h
                          exact (List.drop_suffix 8 rest).trans
                            (List.suffix_cons c rest)
                        · rw [if_neg hpre] at h
                          rcases hnum : parseNum (c :: rest)
                            with _ | ⟨t, r'⟩ <;> rw [hnum] at h
                          · exact absurd h (by simp)
                          dsimp only at h
                          simp only [Option.some.injEq, Prod.mk.injEq] at h
                          obtain ⟨rfl, rfl⟩ := h
                          obtain ⟨hp1, _, _⟩ :=
                            parseNum_span (c :: rest) t r' hnum
                          exact ⟨t, hp1.symm⟩
                      · rw [if_neg h1i] at h
                        rcases hnum : parseNum (c :: rest)
                          with _ | ⟨t, r'⟩ <;> rw [hnum] at h
                        · exact absurd h (by simp)
                        dsimp only at h
                        simp only [Option.some.injEq, Prod.mk.injEq] at h
                        obtain ⟨rfl, rfl⟩ := h
                        obtain ⟨hp1, _, _⟩ :=
                          parseNum_span (c :: rest) t r' hnum
                        exact ⟨t, hp1.symm⟩
    | members =>
      rcases cs with _ | ⟨c0, rest⟩
      · exact absurd h (by simp [parseF])
      rw [parseF.eq_def] at h
      dsimp only at h
      by_cases h1 : (c0 == '"') = true
      · rw [if_pos h1] at h
        rcases hsb : parseStrBody (rest.length + 1) rest
          with _ | ⟨key, r1⟩ <;> rw [hsb] at h
        · exact absurd h (by simp)
        dsimp only at h
        obtain ⟨p, hp1, _, _⟩ := parseStrBody_span _ rest key r1 hsb
        have hr1 : r1 <:+ c0 :: rest :=
          List.IsSuffix.trans (⟨p, hp1.symm⟩ : r1 <:+ rest)
            (List.suffix_cons c0 rest)
        rcases hw1 : skipWs r1 with _ | ⟨c3, r2⟩ <;> rw [hw1] at h
        · exact absurd h (by simp)
        dsimp only at h
        have hr2 : c3 :: r2 <:+ r1 := by
          rw [← hw1]; exact List.dropWhile_suffix _
        by_cases h2 : (c3 == ':') = true
        · rw [if_pos h2] at h
          rcases hv : parseF n .value (skipWs r2)
            with _ | ⟨v, r3⟩ <;> rw [hv] at h
          · exact absurd h (by simp)
          dsimp only at h
          have hr3 : r3 <:+ c0 :: rest :=
            ((ih .value _ v r3 hv).trans (List.dropWhile_suffix _)).trans
              (((List.suffix_cons c3 r2).trans hr2).trans hr1)
          rcases hw3 : skipWs r3 with _ | ⟨c4, r4⟩ <;> rw [hw3] at h
          · exact absurd h (by simp)
          dsimp only at h
          have hr4 : c4 :: r4 <:+ r3 := by
            rw [← hw3]; exact List.dropWhile_suffix _
          by_cases h3 : (c4 == ',') = true
          · rw [if_pos h3] at h
            rcases hm : parseF n .members (skipWs r4)
              with _ | ⟨fsv, r5⟩ <;> rw [hm] at h
            · exact absurd h (by simp)
            cases fsv <;> dsimp only at h
            · exact absurd h (by simp)
            · exact absurd h (by simp)
            · exact absurd h (by simp)
            · exact absurd h (by simp)
            · exact absurd h (by simp)
            · simp only [Option.some.injEq, Prod.mk.injEq] at h
              obtain ⟨rfl, rfl⟩ := h
              exact (((ih .members _ _ r5 hm).trans
                (List.dropWhile_suffix _)).trans
                ((List.suffix_cons c4 r4).trans hr4)).trans hr3
          · rw [if_neg h3] at h
            by_cases h4 : (c4 == rbrace) = true
            · rw [if_pos h4] at h
              simp only [Option.some.injEq, Prod.mk.injEq] at h
              obtain ⟨rfl, rfl⟩ := h
              exact (((List.suffix_cons c4 r4).trans hr4)).trans hr3
            · rw [if_neg h4] at h
              exact absurd h (by simp)
        · rw [if_neg h2] at h
          exact absurd h (by simp)
      · rw [if_neg h1] at h
        exact absurd h (by simp)
    | elements =>
      rw [parseF.eq_def] at h
      dsimp only at h
      rcases hv : parseF n .value cs with _ | ⟨v, r1⟩ <;> rw [hv] at h
      · exact absurd h (by simp)
      dsimp only at h
      have hr1 : r1 <:+ cs := ih .value _ v r1 hv
      rcases hw1 : skipWs r1 with _ | ⟨c2, r2⟩ <;> rw [hw1] at h
      · exact absurd h (by simp)
      dsimp only at h
      have hr2 : c2 :: r2 <:+ r1 := by
        rw [← hw1]; exact List.dropWhile_suffix _
      by_cases h2 : (c2 == ',') = true
      · rw [if_pos h2] at h
        rcases he : parseF n .elements (skipWs r2)
          with _ | ⟨xv, r3⟩ <;> rw [he] at h
        · exact absurd h (by simp)
        cases xv <;> dsimp only at h
        · exact absurd h (by simp)
        · exact absurd h (by simp)
        · exact absurd h (by simp)
        · exact absurd h (by simp)
        · simp only [Option.some.injEq, Prod.mk.injEq] at h
          obtain ⟨rfl, rfl⟩ := h
          exact (((ih .elements _ _ r3 he).trans
            (List.dropWhile_suffix _)).trans
            ((List.suffix_cons c2 r2).trans hr2)).trans hr1
        · exact absurd h (by simp)
      · rw [if_neg h2] at h
        by_cases h3 : (c2 == ']') = true
        · rw [if_pos h3] at h
          simp only [Option.some.injEq, Prod.mk.injEq] at h
          obtain ⟨rfl, rfl⟩ := h
          exact ((List.suffix_cons c2 r2).trans hr2).trans hr1
        · rw [if_neg h3] at h
          exact absurd h (by simp)

lemma digit_not_space {c : Char} (h : isDigitChar c = true) :
    pySpaceChar c = false := by
  by_contra hws
  rw [Bool.not_eq_false] at hws
  have hc : c = ' ' ∨ c = '\t' ∨ c = '\n' ∨ c = '\r' ∨ c = '\x0b' ∨
      c = '\x0c' := by
    have := hws
    simp only [pySpaceChar, Bool.or_eq_true, beq_iff_eq] at this
    tauto
  rcases hc with rfl | rfl | rfl | rfl | rfl | rfl <;>
    simp [isDigitChar] at h

lemma skipWs_singleton_getLast {l : List Char} {c : Char}
    (h : skipWs l = [c]) : l.getLast? = some c := by
  unfold skipWs at h
  conv_lhs => rw [← List.takeWhile_append_dropWhile jsonWsChar l]
  rw [h]
  exact List.getLast?_concat _

/-- When the scanner consumes its whole input, the input's last character is
not whitespace (it is a closing brace/bracket/quote, a digit, or the last
letter of a literal). -/
lemma parseF_full_last :
    ∀ (fuel : Nat) (m : PMode) (cs : List Char) (x : Json),
      parseF fuel m cs = some (x, []) →
      ∃ c, cs.getLast? = some c ∧ pySpaceChar c = false := by
  intro fuel
  induction fuel with
  | zero => intro m cs x h; exact absurd h (by simp [parseF])
  | succ n ih =>
    intro m cs x h
    cases m with
    | value =>
      rcases cs with _ | ⟨c, rest⟩
      · exact absurd h (by simp [parseF])
      rw [parseF.eq_def] at h
      dsimp only at h
      by_cases h1 : (c == lbrace) = true
      · rw [if_pos h1] at h
        rcases hu : skipWs rest with _ | ⟨c2, r2⟩ <;> rw [hu] at h
        · exact absurd h (by simp)
        dsimp only at h
        by_cases h2 : (c2 == rbrace) = true
        · rw [if_pos h2] at h
          simp only [Option.some.injEq, Prod.mk.injEq] at h
          obtain ⟨rfl, hr2⟩ := h
          subst hr2
          refine ⟨c2, ?_, ?_⟩
          · exact getLast?_of_suffix (List.suffix_cons c rest)
              (skipWs_singleton_getLast hu)
          · rw [beq_iff_eq.mp h2]
            decide
        · rw [if_neg h2] at h
          obtain ⟨cl, hcl, hws⟩ := ih .members _ x h
          refine ⟨cl, ?_, hws⟩
          refine getLast?_of_suffix (List.suffix_cons c rest) ?_
          refine getLast?_of_suffix ?_ hcl
          rw [← hu]
          exact List.dropWhile_suffix _
      · rw [if_neg h1] at h
        by_cases h1b : (c == '[') = true
        · rw [if_pos h1b] at h
          rcases hu : skipWs rest with _ | ⟨c2, r2⟩ <;> rw [hu] at h
          · exact absurd h (by simp)
          dsimp only at h
          by_cases h2 : (c2 == ']') = true
          · rw [if_pos h2] at h
            simp only [Option.some.injEq, Prod.mk.injEq] at h
            obtain ⟨rfl, hr2⟩ := h
            subst hr2
            refine ⟨c2, ?_, ?_⟩
            · exact getLast?_of_suffix (List.suffix_cons c rest)
                (skipWs_singleton_getLast hu)
            · rw [beq_iff_eq.mp h2]
              decide
          · rw [if_neg h2] at h
            obtain ⟨cl, hcl, hws⟩ := ih .elements _ x h
            refine ⟨cl, ?_, hws⟩
            refine getLast?_of_suffix (List.suffix_cons c rest) ?_
            refine getLast?_of_suffix ?_ hcl
            rw [← hu]
            exact List.dropWhile_suffix _
        · rw [if_neg h1b] at h
          by_cases h1c : (c == '"') = true
          · rw [if_pos h1c] at h
            rcases hsb : parseStrBody (rest.length + 1) rest
              with _ | ⟨s, r'⟩ <;> rw [hsb] at h
            · exact absurd h (by simp)
            dsimp only at h
            simp only [Option.some.injEq, Prod.mk.injEq] at h
            obtain ⟨rfl, hr⟩ := h
            subst hr
            obtain ⟨p, hp1, hp2, hp3⟩ := parseStrBody_span _ rest s [] hsb
            rw [List.append_nil] at hp1
            subst hp1
            exact ⟨'"', getLast?_of_suffix (List.suffix_cons c rest) hp3,
              by decide⟩
          · rw [if_neg h1c] at h
            by_cases h1d : (c == 't') = true
            · rw [if_pos h1d] at h
              by_cases hpre : "rue".data.isPrefixOf rest = true
              · rw [if_pos hpre] at h
                simp only [Option.some.injEq, Prod.mk.injEq] at h
                obtain ⟨rfl, hdrop⟩ := h
                obtain ⟨t, ht⟩ := List.isPrefixOf_iff_prefix.mp hpre
                rw [← ht,
                  show List.drop 3 ("rue".data ++ t) = t from rfl] at hdrop
                subst hdrop
                rw [List.append_nil] at ht
                subst ht
                exact ⟨'e', getLast?_of_suffix
                  (List.suffix_cons c "rue".data) rfl, by decide⟩
              · rw [if_neg hpre] at h
                exact absurd h (by simp)
            · rw [if_neg h1d] at h
              by_cases h1e : (c == 'f') = true
              · rw [if_pos h1e] at h
                by_cases hpre : "alse".data.isPrefixOf rest = true
                · rw [if_pos hpre] at h
                  simp only [Option.some.injEq, Prod.mk.injEq] at h
                  obtain ⟨rfl, hdrop⟩ := h
                  obtain ⟨t, ht⟩ := List.isPrefixOf_iff_prefix.mp hpre
                  rw [← ht,
                    show List.drop 4 ("alse".data ++ t) = t from rfl]
                    at hdrop
                  subst hdrop
                  rw [List.append_nil] at ht
                  subst ht
                  exact ⟨'e', getLast?_of_suffix
                    (List.suffix_cons c "alse".data) rfl, by decide⟩
                · rw [if_neg hpre] at h
                  exact absurd h (by simp)
              · rw [if_neg h1e] at h
                by_cases h1f : (c == 'n') = true
                · rw [if_pos h1f] at h
                  by_cases hpre : "ull".data.isPrefixOf rest = true
                  · rw [if_pos hpre] at h
                    simp only [Option.some.injEq, Prod.mk.injEq] at h
                    obtain ⟨rfl, hdrop⟩ := h
                    obtain ⟨t, ht⟩ := List.isPrefixOf_iff_prefix.mp hpre
                    rw [← ht,
                      show List.drop 3 ("ull".data ++ t) = t from rfl]
                      at hdrop
                    subst hdrop
                    rw [List.append_nil] at ht
                    subst ht
                    exact ⟨'l', getLast?_of_suffix
                      (List.suffix_cons c "ull".data) rfl, by decide⟩
                  · rw [if_neg hpre] at h
                    exact absurd h (by simp)
                · rw [if_neg h1f] at h
                  by_cases h1g : (c == 'N') = true
                  · rw [if_pos h1g] at h
                    by_cases hpre : "aN".data.isPrefixOf rest = true
                    · rw [if_pos hpre] at h
                      simp only [Option.some.injEq, Prod.mk.injEq] at h
                      obtain ⟨rfl, hdrop⟩ := h
                      obtain ⟨t, ht⟩ := List.isPrefixOf_iff_prefix.mp hpre
                      rw [← ht,
                        show List.drop 2 ("aN".data ++ t) = t from rfl]
                        at hdrop
                      subst hdrop
                      rw [List.append_nil] at ht
                      subst ht
                      exact ⟨'N', getLast?_of_suffix
                        (List.suffix_cons c "aN".data) rfl, by decide⟩
                    · rw [if_neg hpre] at h
                      exact absurd h (by simp)
                  · rw [if_neg h1g] at h
                    by_cases h1h : (c == 'I') = true
                    · rw [if_pos h1h] at h
                      by_cases hpre : "nfinity".data.isPrefixOf rest = true
                      · rw [if_pos hpre] at h
                        simp only [Option.some.injEq, Prod.mk.injEq] at h
                        obtain ⟨rfl, hdrop⟩ := h
                        obtain ⟨t, ht⟩ := List.isPrefixOf_iff_prefix.mp hpre
                        rw [← ht,
                          show List.drop 7 ("nfinity".data ++ t) = t
                            from rfl] at hdrop
                        subst hdrop
                        rw [List.append_nil] at ht
                        subst ht
                        exact ⟨'y', getLast?_of_suffix
                          (List.suffix_cons c "nfinity".data) rfl, by decide⟩
                      · rw [if_neg hpre] at h
                        exact absurd h (by simp)
                    · rw [if_neg h1h] at h
                      by_cases h1i : (c == '-') = true
                      · rw [if_pos h1i] at h
                        by_cases hpre :
                            "Infinity".data.isPrefixOf rest = true
                        · rw [if_pos hpre] at h
                          simp only [Option.some.injEq, Prod.mk.injEq] at h
                          obtain ⟨rfl, hdrop⟩ := h
                          obtain ⟨t, ht⟩ :=
                            List.isPrefixOf_iff_prefix.mp hpre
                          rw [← ht,
                            show List.drop 8 ("Infinity".data ++ t) = t
                              from rfl] at hdrop
                          subst hdrop
                          rw [List.append_nil] at ht
                          subst ht
                          exact ⟨'y', getLast?_of_suffix
                            (List.suffix_cons c "Infinity".data) rfl,
                            by decide⟩
                        · rw [if_neg hpre] at h
                          rcases hnum : parseNum (c :: rest)
                            with _ | ⟨t, r'⟩ <;> rw [hnum] at h
                          · exact absurd h (by simp)
                          dsimp only at h
                          simp only [Option.some.injEq, Prod.mk.injEq] at h
                          obtain ⟨rfl, hr⟩ := h
                          subst hr
                          obtain ⟨hp1, hp2, hp3⟩ :=
                            parseNum_span (c :: rest) t [] hnum
                          rw [List.append_nil] at hp1
                          rcases hy : t.getLast? with _ | y
                          · exact absurd (List.getLast?_eq_none_iff.mp hy)
                              hp2
                          exact ⟨y, hp1 ▸ hy, digit_not_space (hp3 y hy)⟩
                      · rw [if_neg h1i] at h
                        rcases hnum : parseNum (c :: rest)
                          with _ | ⟨t, r'⟩ <;> rw [hnum] at h
                        · exact absurd h (by simp)
                        dsimp only at h
                        simp only [Option.some.injEq, Prod.mk.injEq] at h
                        obtain ⟨rfl, hr⟩ := h
                        subst hr
                        obtain ⟨hp1, hp2, hp3⟩ :=
                          parseNum_span (c :: rest) t [] hnum
                        rw [List.append_nil] at hp1
                        rcases hy : t.getLast? with _ | y
                        · exact absurd (List.getLast?_eq_none_iff.mp hy) hp2
                        exact ⟨y, hp1 ▸ hy, digit_not_space (hp3 y hy)⟩
    | members =>
      rcases cs with _ | ⟨c0, rest⟩
      · exact absurd h (by simp [parseF])
      rw [parseF.eq_def] at h
      dsimp only at h
      by_cases h1 : (c0 == '"') = true
      · rw [if_pos h1] at h
        rcases hsb : parseStrBody (rest.length + 1) rest
          with _ | ⟨key, r1⟩ <;> rw [hsb] at h
        · exact absurd h (by simp)
        dsimp only at h
        obtain ⟨p, hp1, _, _⟩ := parseStrBody_span _ rest key r1 hsb
        have hr1 : r1 <:+ c0 :: rest :=
          List.IsSuffix.trans (⟨p, hp1.symm⟩ : r1 <:+ rest)
            (List.suffix_cons c0 rest)
        rcases hw1 : skipWs r1 with _ | ⟨c3, r2⟩ <;> rw [hw1] at h
        · exact absurd h (by simp)
        dsimp only at h
        have hr2 : c3 :: r2 <:+ r1 := by
          rw [← hw1]; exact List.dropWhile_suffix _
        by_cases h2 : (c3 == ':') = true
        · rw [if_pos h2] at h
          rcases hv : parseF n .value (skipWs r2)
            with _ | ⟨v, r3⟩ <;> rw [hv] at h
          · exact absurd h (by simp)
          dsimp only at h
          have hr3 : r3 <:+ c0 :: rest :=
            ((parseF_suffix n .value _ v r3 hv).trans
              (List.dropWhile_suffix _)).trans
              (((List.suffix_cons c3 r2).trans hr2).trans hr1)
          rcases hw3 : skipWs r3 with _ | ⟨c4, r4⟩ <;> rw [hw3] at h
          · exact absurd h (by simp)
          dsimp only at h
          have hr4 : c4 :: r4 <:+ r3 := by
            rw [← hw3]; exact List.dropWhile_suffix _
          by_cases h3 : (c4 == ',') = true
          · rw [if_pos h3] at h
            rcases hm : parseF n .members (skipWs r4)
              with _ | ⟨fsv, r5⟩ <;> rw [hm] at h
            · exact absurd h (by simp)
            cases fsv <;> dsimp only at h
            · exact absurd h (by simp)
            · exact absurd h (by simp)
            · exact absurd h (by simp)
            · exact absurd h (by simp)
            · exact absurd h (by simp)
            · simp only [Option.some.injEq, Prod.mk.injEq] at h
              obtain ⟨rfl, hr⟩ := h
              subst hr
              obtain ⟨cl, hcl, hws⟩ := ih .members _ _ hm
              refine ⟨cl, ?_, hws⟩
              refine getLast?_of_suffix ?_ hcl
              exact ((List.dropWhile_suffix _).trans
                ((List.suffix_cons c4 r4).trans hr4)).trans hr3
          · rw [if_neg h3] at h
            by_cases h4 : (c4 == rbrace) = true
            · rw [if_pos h4] at h
              simp only [Option.some.injEq, Prod.mk.injEq] at h
              obtain ⟨rfl, hr⟩ := h
              subst hr
              refine ⟨c4, ?_, ?_⟩
              · refine getLast?_of_suffix hr3 ?_
                exact skipWs_singleton_getLast hw3
              · rw [beq_iff_eq.mp h4]
                decide
            · rw [if_neg h4] at h
              exact absurd h (by simp)
        · rw [if_neg h2] at h
          exact absurd h (by simp)
      · rw [if_neg h1] at h
        exact absurd h (by simp)
    | elements =>
      rw [parseF.eq_def] at h
      dsimp only at h
      rcases hv : parseF n .value cs with _ | ⟨v, r1⟩ <;> rw [hv] at h
      · exact absurd h (by simp)
      dsimp only at h
      have hr1 : r1 <:+ cs := parseF_suffix n .value cs v r1 hv
      rcases hw1 : skipWs r1 with _ | ⟨c2, r2⟩ <;> rw [hw1] at h
      · exact absurd h (by simp)
      dsimp only at h
      have hr2 : c2 :: r2 <:+ r1 := by
        rw [← hw1]; exact List.dropWhile_suffix _
      by_cases h2 : (c2 == ',') = true
      · rw [if_pos h2] at h
        rcases he : parseF n .elements (skipWs r2)
          with _ | ⟨xv, r3⟩ <;> rw [he] at h
        · exact absurd h (by simp)
        cases xv <;> dsimp only at h
        · exact absurd h (by simp)
        · exact absurd h (by simp)
        · exact absurd h (by simp)
        · exact absurd h (by simp)
        · simp only [Option.some.injEq, Prod.mk.injEq] at h
          obtain ⟨rfl, hr⟩ := h
          subst hr
          obtain ⟨cl, hcl, hws⟩ := ih .elements _ _ he
          refine ⟨cl, ?_, hws⟩
          refine getLast?_of_suffix ?_ hcl
          exact ((List.dropWhile_suffix _).trans
            ((List.suffix_cons c2 r2).trans hr2)).trans hr1
        · exact absurd h (by simp)
      · rw [if_neg h2] at h
        by_cases h3 : (c2 == ']') = true
        · rw [if_pos h3] at h
          simp only [Option.some.injEq, Prod.mk.injEq] at h
          obtain ⟨rfl, hr⟩ := h
          subst hr
          refine ⟨c2, ?_, ?_⟩
          · refine getLast?_of_suffix hr1 ?_
            exact skipWs_singleton_getLast hw1
          · rw [beq_iff_eq.mp h3]
            decide
        · rw [if_neg h3] at h
          exact absurd h (by simp)

/-- `strip` leaves a string alone when neither end is whitespace. -/
lemma pyStrip_no_ws_ends {cs : List Char} {c1 c2 : Char}
    (h1 : cs.head? = some c1) (hw1 : pySpaceChar c1 = false)
    (h2 : cs.getLast? = some c2) (hw2 : pySpaceChar c2 = false) :
    pyStrip cs = cs := by
  rcases cs with _ | ⟨a, l⟩
  · cases h1
  have hwa : pySpaceChar a = false := by
    simp only [List.head?_cons, Option.some.injEq] at h1
    rw [h1]
    exact hw1
  unfold pyStrip pyStripLeft pyStripRight
  rw [dropWhile_cons_neg _ _ _ hwa]
  rcases hrev : (a :: l).reverse with _ | ⟨b, m⟩
  · exact absurd (congrArg List.length hrev) (by simp)
  have hwb : pySpaceChar b = false := by
    have hh := List.head?_reverse (a :: l)
    rw [hrev, h2] at hh
    simp only [List.head?_cons, Option.some.injEq] at hh
    rw [hh]
    exact hw2
  rw [dropWhile_cons_neg _ _ _ hwb]
  have hfinal := congrArg List.reverse hrev
  rw [List.reverse_reverse] at hfinal
  exact hfinal.symm

/-- Stripping from the right leaves a string ending in a backtick fence
alone. -/
lemma pyStripRight_backtick (X : List Char) :
    (List.dropWhile pySpaceChar (X ++ "\n```".data).reverse).reverse =
      X ++ "\n```".data := by
  have e : (X ++ "\n```".data).reverse =
      '`' :: ('`' :: '`' :: '\n' :: X.reverse) := by
    rw [List.reverse_append]
    rfl
  rw [e, dropWhile_cons_neg _ _ _ (by decide), ← e, List.reverse_reverse]

/-- The fence-stripping pipeline of `extract_json`, applied to a fenced
document `W1 ++ t ++ W2` (leading JSON whitespace, a core that neither
starts nor ends with Python-strippable whitespace, trailing JSON
whitespace), yields exactly the core `t`. -/
lemma cleanResponse_fenced (t W1 W2 : List Char)
    (hW1 : ∀ d ∈ W1, jsonWsChar d = true)
    (hW2 : ∀ d ∈ W2, jsonWsChar d = true)
    {c0 : Char} {t0 : List Char} (htdec : t = c0 :: t0)
    (hhead : pySpaceChar c0 = false)
    {cl : Char} (hlast : t.getLast? = some cl)
    (hlastws : pySpaceChar cl = false) :
    cleanResponse ("```json\n".data ++ (W1 ++ t ++ W2) ++ "\n```".data) =
      t := by
  have hW1py : ∀ d ∈ W1, pySpaceChar d = true :=
    fun d hd => jsonWs_pySpace (hW1 d hd)
  have hW2py : ∀ d ∈ W2.reverse, pySpaceChar d = true :=
    fun d hd => jsonWs_pySpace (hW2 d (List.mem_reverse.mp hd))
  have htne : t ≠ [] := by rw [htdec]; simp
  -- the whole fenced string is already stripped at both ends
  have h1 : pyStrip ("```json\n".data ++ (W1 ++ t ++ W2) ++
      "\n```".data) = "```json\n".data ++ (W1 ++ t ++ W2) ++
      "\n```".data := by
    refine @pyStrip_no_ws_ends _ '`' '`' rfl (by decide) ?_ (by decide)
    rw [List.getLast?_append]
    rfl
  -- the fence-marker test
  have hpre : "```json".data.isPrefixOf ("```json\n".data ++
      (W1 ++ t ++ W2) ++ "\n```".data) = true :=
    List.isPrefixOf_iff_prefix.mpr
      ⟨'\n' :: (W1 ++ t ++ W2 ++ "\n```".data), rfl⟩
  -- dropping the 7-character marker
  have h3 : ("```json\n".data ++ (W1 ++ t ++ W2) ++ "\n```".data).drop 7 =
      '\n' :: (W1 ++ t ++ W2 ++ "\n```".data) := rfl
  -- stripping after the marker removal
  have h4 : pyStrip ('\n' :: (W1 ++ t ++ W2 ++ "\n```".data)) =
      t ++ W2 ++ "\n```".data := by
    have hstep : List.dropWhile pySpaceChar
        ('\n' :: (W1 ++ t ++ W2 ++ "\n```".data)) =
        t ++ W2 ++ "\n```".data := by
      rw [List.dropWhile_cons, if_pos (by decide)]
      rw [show W1 ++ t ++ W2 ++ "\n```".data =
        W1 ++ (t ++ W2 ++ "\n```".data) from by simp [List.append_assoc]]
      rw [dropWhile_append_all _ _ _ hW1py]
      rw [show t ++ W2 ++ "\n```".data =
        c0 :: (t0 ++ W2 ++ "\n```".data) from by
          rw [htdec]
          simp [List.append_assoc]]
      rw [dropWhile_cons_neg _ _ _ hhead]
    unfold pyStrip pyStripLeft pyStripRight
    rw [hstep]
    rw [show t ++ W2 ++ "\n```".data =
      (t ++ W2) ++ "\n```".data from by simp [List.append_assoc]]
    exact pyStripRight_backtick (t ++ W2)
  -- the closing-fence test
  have h5 : "```".data.isSuffixOf (t ++ W2 ++ "\n```".data) = true := by
    refine List.isSuffixOf_iff_suffix.mpr ⟨t ++ W2 ++ ['\n'], ?_⟩
    simp [List.append_assoc]
  -- dropping the closing fence
  have h6 : (t ++ W2 ++ "\n```".data).take
      ((t ++ W2 ++ "\n```".data).length - 3) = t ++ W2 ++ ['\n'] := by
    have e3 : t ++ W2 ++ "\n```".data =
        (t ++ W2 ++ ['\n']) ++ "```".data := by
      simp [List.append_assoc]
    rw [e3]
    have e4 : ((t ++ W2 ++ ['\n']) ++ "```".data).length - 3 =
        (t ++ W2 ++ ['\n']).length := by
      simp
      omega
    rw [e4, List.take_left]
  -- the final strip leaves exactly the core
  have h7 : pyStrip (t ++ W2 ++ ['\n']) = t := by
    have hstep : List.dropWhile pySpaceChar (t ++ W2 ++ ['\n']) =
        t ++ W2 ++ ['\n'] := by
      rw [show t ++ W2 ++ ['\n'] = c0 :: (t0 ++ W2 ++ ['\n']) from by
        rw [htdec]
        simp [List.append_assoc]]
      rw [dropWhile_cons_neg _ _ _ hhead]
    unfold pyStrip pyStripLeft pyStripRight
    rw [hstep]
    have e : (t ++ W2 ++ ['\n']).reverse =
        '\n' :: (W2.reverse ++ t.reverse) := by
      rw [List.reverse_append, List.reverse_append]
      rfl
    rw [e, List.dropWhile_cons, if_pos (by decide),
      dropWhile_append_all _ _ _ hW2py]
    rcases hrev : t.reverse with _ | ⟨b, m⟩
    · exact absurd (by
        have hlen := congrArg List.length hrev
        simpa using hlen) htne
    have hb : b = cl := by
      have hh := List.head?_reverse t
      rw [hrev, hlast] at hh
      simp only [List.head?_cons, Option.some.injEq] at hh
      exact hh
    rw [dropWhile_cons_neg _ _ _ (by rw [hb]; exact hlastws)]
    have hfinal := congrArg List.reverse hrev
    rw [List.reverse_reverse] at hfinal
    exact hfinal.symm
  unfold cleanResponse cleanPrefixFence
  rw [h1, if_pos hpre, h3, h4]
  unfold cleanSuffixFence
  rw [if_pos h5, h6, h7]

/-- C6 (confirmed): for every text `J` accepted by strict JSON parsing,
`extract_json` applied to the Markdown-fenced form returns exactly the
value obtained by parsing the unwrapped text directly (the strict-parse
branch succeeds; the regex fallback is never consulted). -/
theorem extract_json_fenced_round_trip (J : String) (v : Json)
    (h : json_loads J.data = some v) :
    extract_json ("```json\n" ++ J ++ "\n```") = v := by
  -- extract the successful scan underlying the hypothesis
  unfold json_loads at h
  rcases hp : parseF ((stripJsonWs J.data).length + 1) .value
      (stripJsonWs J.data) with _ | ⟨v', r⟩ <;> rw [hp] at h
  · exact absurd h (by simp)
  rcases r with _ | ⟨rc, rr⟩
  swap
  · exact absurd h (by simp)
  dsimp only at h
  obtain rfl := Option.some.inj h
  -- the scanned core is nonempty
  rcases htd : stripJsonWs J.data with _ | ⟨c0, t0⟩
  · rw [htd] at hp
    exact absurd hp (by simp [parseF])
  have hpc : parseF ((c0 :: t0).length + 1) .value (c0 :: t0) =
      some (v', []) := by rw [← htd]; exact hp
  have hhead : pySpaceChar c0 = false := parseF_value_head hpc
  obtain ⟨cl, hcl, hclws⟩ := parseF_full_last _ .value (c0 :: t0) v' hpc
  have hclt : (stripJsonWs J.data).getLast? = some cl := by
    rw [htd]; exact hcl
  -- decompose the document around the core
  have hJu : J.data = J.data.takeWhile jsonWsChar ++
      J.data.dropWhile jsonWsChar :=
    (List.takeWhile_append_dropWhile _ _).symm
  have hu : J.data.dropWhile jsonWsChar = stripJsonWs J.data ++
      ((J.data.dropWhile jsonWsChar).reverse.takeWhile jsonWsChar).reverse
      := by
    conv_lhs => rw [← List.reverse_reverse (J.data.dropWhile jsonWsChar),
      ← List.takeWhile_append_dropWhile jsonWsChar
        (J.data.dropWhile jsonWsChar).reverse]
    rw [List.reverse_append]
    rfl
  have hJfull : J.data = J.data.takeWhile jsonWsChar ++
      stripJsonWs J.data ++
      ((J.data.dropWhile jsonWsChar).reverse.takeWhile jsonWsChar).reverse
      := by
    rw [List.append_assoc, ← hu, ← hJu]
  -- the fence pipeline leaves exactly the core
  have hclean := cleanResponse_fenced (stripJsonWs J.data)
    (J.data.takeWhile jsonWsChar)
    ((J.data.dropWhile jsonWsChar).reverse.takeWhile jsonWsChar).reverse
    (fun d hd => List.mem_takeWhile_imp hd)
    (fun d hd => List.mem_takeWhile_imp (List.mem_reverse.mp hd))
    htd hhead hclt hclws
  have hfd : ("```json\n" ++ J ++ "\n```").data =
      "```json\n".data ++ (J.data.takeWhile jsonWsChar ++
        stripJsonWs J.data ++
        ((J.data.dropWhile jsonWsChar).reverse.takeWhile
          jsonWsChar).reverse) ++ "\n```".data := by
    rw [String.data_append, String.data_append, ← hJfull]
  -- the stripped core is itself strip-invariant, so it parses as before
  have hjson0 : jsonWsChar c0 = false := by
    cases hj : jsonWsChar c0 with
    | true => exact absurd (jsonWs_pySpace hj) (by rw [hhead]; simp)
    | false => rfl
  have hjsoncl : jsonWsChar cl = false := by
    cases hj : jsonWsChar cl with
    | true => exact absurd (jsonWs_pySpace hj) (by rw [hclws]; simp)
    | false => rfl
  have hstrip_t : stripJsonWs (stripJsonWs J.data) = stripJsonWs J.data
      := by
    have hskip : skipWs (stripJsonWs J.data) = stripJsonWs J.data := by
      rw [htd]
      exact dropWhile_cons_neg _ _ _ hjson0
    show ((skipWs (stripJsonWs J.data)).reverse.dropWhile
      jsonWsChar).reverse = stripJsonWs J.data
    rw [hskip]
    rcases hrevt : (stripJsonWs J.data).reverse with _ | ⟨b, m⟩
    · exfalso
      have hlen := congrArg List.length hrevt
      rw [htd] at hlen
      simp at hlen
    have hb : b = cl := by
      have hh := List.head?_reverse (stripJsonWs J.data)
      rw [hrevt, hclt] at hh
      simp only [List.head?_cons, Option.some.injEq] at hh
      exact hh
    rw [dropWhile_cons_neg _ _ _ (by rw [hb]; exact hjsoncl)]
    have hfinal := congrArg List.reverse hrevt
    rw [List.reverse_reverse] at hfinal
    exact hfinal.symm
  have hloads : json_loads (stripJsonWs J.data) = some v' := by
    unfold json_loads
    rw [hstrip_t, hp]
  -- assemble
  unfold extract_json
  rw [hfd, hclean, hloads]

/-- Witness for C6 at a concrete JSON document. -/
theorem extract_json_fenced_round_trip_witness :
    extract_json ("```json\n" ++ "\x7b\"a\": [1, true]\x7d" ++ "\n```") =
      Json.obj [("a", Json.arr [Json.num "1", Json.bool true])] :=
  extract_json_fenced_round_trip "\x7b\"a\": [1, true]\x7d"
    (Json.obj [("a", Json.arr [Json.num "1", Json.bool true])]) rfl

end Karbon
